import Mathlib

/-!
Verification development for libavfilter/avfiltergraph.c (filter-graph
configuration: validity checking, format negotiation, link configuration).

The graph state is embedded shallowly:
* filter contexts, links and candidate format sets live in explicit stores
  (`List`-indexed heaps), so that the C code's pointer sharing (one
  `AVFilterFormats` object referenced from several links) is modelled by
  shared store indices;
* machine integers are `Int`/`Nat` (the counters and error codes involved
  never overflow in any reachable configuration);
* external collaborators that live in other files of the repository
  (formats.c, avfilter.c, defaults.c) are modelled from the specification,
  each marked by a doc comment starting with `Modelled from the spec:`.

Functions defined from avfiltergraph.c itself keep their C names.
-/

/-- POSIX error number used by AVERROR(EINVAL). -/
def EINVAL : Int := 22

/-- POSIX error number used by AVERROR(ENOMEM). -/
def ENOMEM : Int := 12

/-- The AVERROR macro: negates a POSIX error number. -/
def AVERROR (e : Int) : Int := -e

/-- Sentinel returned by the model's merge loop when its fuel runs out.
The fuel passed by `query_formats` exceeds every reachable iteration count
(one unit per loop step, converters included), so this value is believed
unreachable; no theorem below depends on that. -/
def FUEL_EXHAUSTED : Int := -909

/-- Media kinds: AVMEDIA_TYPE_VIDEO, AVMEDIA_TYPE_AUDIO, and everything
else (the `default` branch of the switch in query_formats). -/
inductive AVMediaType where
  | video : AVMediaType
  | audio : AVMediaType
  | other : AVMediaType
deriving DecidableEq, Repr

/-- An AVFilterFormats candidate set: `formats` is the array contents up to
format_count (pinning a set writes formats[0] and sets format_count to 1,
which this model expresses by replacing the list with a singleton). -/
structure AVFilterFormats where
  formats : List Int
deriving DecidableEq, Repr

/-- An AVFilterLink.  `src`/`dst` are indices of the endpoint filters in
the graph's filter list (`none` models a NULL pointer), `srcpad`/`dstpad`
the pad indices at each endpoint, `in_formats`/`out_formats` indices into
the format-set store (`none` models a NULL reference, as after
avfilter_formats_unref), and `format` the concrete negotiated format. -/
structure AVFilterLink where
  src : Option Nat
  srcpad : Nat
  dst : Option Nat
  dstpad : Nat
  type : AVMediaType
  in_formats : Option Nat
  out_formats : Option Nat
  format : Int
deriving DecidableEq, Repr

/-- The state effect of a capability callback.  Filters in the repository
populate their pads' candidate sets in one of two ways: `common fl`
installs one shared AVFilterFormats holding `fl` on every pad
(set_common_formats style, also the default callback's behaviour), and
`perPad ins outs` installs a fresh independent set per pad (the style of
the scale and resample converters, whose two pads support different
sets). -/
inductive QFEffect where
  | common : List Int → QFEffect
  | perPad : List (List Int) → List (List Int) → QFEffect
deriving DecidableEq, Repr

/-- An AVFilterContext.  `filterName` is filter->filter->name (the type
descriptor's name); `query_formats` is the descriptor's capability
callback, modelled as the pair of the `int` code the callback returns and
the effect it has on the pads' candidate sets (`none` models a NULL
callback pointer); `init_ret` models the result of the descriptor's init
callback; `inputs`/`outputs` hold link store indices (`none` = NULL). -/
structure AVFilterContext where
  name : String
  filterName : String
  query_formats : Option (Int × QFEffect)
  init_ret : Int
  input_pads : List String
  output_pads : List String
  inputs : List (Option Nat)
  outputs : List (Option Nat)
deriving DecidableEq, Repr

instance : Inhabited AVFilterContext :=
  ⟨{ name := "", filterName := "", query_formats := none, init_ret := 0,
     input_pads := [], output_pads := [], inputs := [], outputs := [] }⟩

/-- An AVFilter type descriptor, as found in the catalog
(avfilter_get_by_name).  `open_ret` models the result of avfilter_open
beyond a NULL descriptor (e.g. ENOMEM); `init_ret` the result of
avfilter_init_filter. -/
structure AVFilter where
  name : String
  query_formats : Option (Int × QFEffect)
  open_ret : Int
  init_ret : Int
  input_pad_names : List String
  output_pad_names : List String
deriving DecidableEq, Repr

/-- The AVFilterGraph structure: insertion-ordered owned filters plus the
default scaling options string. -/
structure AVFilterGraph where
  filters : List AVFilterContext
  scale_sws_opts : String
deriving DecidableEq, Repr

/-- Whole mutable state: the graph plus the heap of links and the heap of
candidate format sets that the graph's pads reference. -/
structure GState where
  graph : AVFilterGraph
  links : List AVFilterLink
  fmts : List AVFilterFormats
deriving DecidableEq, Repr

/-- External collaborators, passed as an environment:
`catalog` is avfilter_get_by_name; `all_formats` is
`Modelled from the spec:` the default "all known formats" candidate list
installed by avfilter_default_query_formats (defaults.c, not under src/);
`allocOk` is the outcome of the allocations performed while auto-inserting
converters (av_realloc in avfilter_graph_add_filter). -/
structure Env where
  catalog : String → Option AVFilter
  all_formats : List Int
  allocOk : Bool

/-- Read graph->filters[i]. -/
def filterAt (st : GState) (i : Nat) : AVFilterContext :=
  st.graph.filters.getD i default

/-- Dereference a link store index. -/
def linkAt (st : GState) (lid : Nat) : Option AVFilterLink :=
  st.links.get? lid

/-- Contents of format-set store entry k. -/
def fmtsIdx (st : GState) (k : Nat) : List Int :=
  (st.fmts.getD k ⟨[]⟩).formats

/-- Contents of an optional format-set reference (a NULL reference is
treated as the empty list; the C code never dereferences NULL here in any
reachable state). -/
def fmtsOf (st : GState) (r : Option Nat) : List Int :=
  match r with
  | none => []
  | some k => fmtsIdx st k

/-- Names of the graph's filters, in insertion order. -/
def filterNames (st : GState) : List String :=
  st.graph.filters.map (fun c => c.name)

/-- Number of links in the store. -/
def numLinks (st : GState) : Nat :=
  st.links.length

/-- Total number of link slots over all filters' input pads. -/
def totalInputs (st : GState) : Nat :=
  (st.graph.filters.map (fun c => c.inputs.length)).sum

/-- Total candidate count over all format sets in the store. -/
def totalFormatCount (st : GState) : Nat :=
  (st.fmts.map (fun f => f.formats.length)).sum

/-- Replace link store entry lid. -/
def updLink (st : GState) (lid : Nat) (l : AVFilterLink) : GState :=
  { st with links := st.links.set lid l }

/-- Replace format store entry k (pinning writes a singleton here). -/
def updFmts (st : GState) (k : Nat) (fl : List Int) : GState :=
  { st with fmts := st.fmts.set k ⟨fl⟩ }

/-- Replace graph->filters[k]. -/
def updFilter (st : GState) (k : Nat) (c : AVFilterContext) : GState :=
  { st with graph := { st.graph with filters := st.graph.filters.set k c } }

/-- Append a filter to the graph's filter list. -/
def appendFilter (st : GState) (c : AVFilterContext) : GState :=
  { st with graph := { st.graph with filters := st.graph.filters ++ [c] } }

/-! ### ff_avfilter_graph_check_validity (avfiltergraph.c:94-122) -/

/-- The data the validity check reports through av_log when a pad is not
connected: direction, pad name, filter instance name, filter type name. -/
structure CheckFail where
  isInput : Bool
  padName : String
  filterName : String
  typeName : String
deriving DecidableEq, Repr

/-- Check `filt->inputs[j] && filt->inputs[j]->src` (a dangling store index
is treated like a NULL pointer; it cannot occur in a C heap). -/
def inputPadOk (st : GState) (f : AVFilterContext) (j : Nat) : Bool :=
  match f.inputs.getD j none with
  | none => false
  | some lid =>
    match linkAt st lid with
    | none => false
    | some l => l.src.isSome

/-- Check `filt->outputs[j] && filt->outputs[j]->dst`. -/
def outputPadOk (st : GState) (f : AVFilterContext) (j : Nat) : Bool :=
  match f.outputs.getD j none with
  | none => false
  | some lid =>
    match linkAt st lid with
    | none => false
    | some l => l.dst.isSome

/-- One filter's scan: all input pads in index order, then all output
pads; report the first unconnected pad. -/
def check_filter (st : GState) (f : AVFilterContext) : Option CheckFail :=
  match (List.range f.inputs.length).find? (fun j => !(inputPadOk st f j)) with
  | some j => some ⟨true, f.input_pads.getD j "", f.name, f.filterName⟩
  | none =>
    match (List.range f.outputs.length).find? (fun j => !(outputPadOk st f j)) with
    | some j => some ⟨false, f.output_pads.getD j "", f.name, f.filterName⟩
    | none => none

/-- The filter loop of ff_avfilter_graph_check_validity. -/
def check_loop (st : GState) : List AVFilterContext → Int × Option CheckFail
  | [] => (0, none)
  | f :: rest =>
    match check_filter st f with
    | some cf => (AVERROR EINVAL, some cf)
    | none => check_loop st rest

/-- ff_avfilter_graph_check_validity: scan filters in insertion order; on
the first unconnected pad return AVERROR(EINVAL) together with the data
that the C function reports through av_log. -/
def ff_avfilter_graph_check_validity (st : GState) : Int × Option CheckFail :=
  check_loop st st.graph.filters

/-! ### avfilter_graph_free (avfiltergraph.c:49-58) -/

/-- The teardown loop of avfilter_graph_free: repeatedly destroy
filters[filter_count-1]; returns the destruction order. -/
def free_order : List AVFilterContext → List AVFilterContext
  | [] => []
  | f :: fs =>
    (f :: fs).getLast (by simp) :: free_order (f :: fs).dropLast
termination_by l => l.length
decreasing_by simp [List.length_dropLast]

/-- avfilter_graph_free: on a NULL graph pointer do nothing; otherwise
destroy the filters last-added-first, then free the graph's own storage
(the pointer becomes NULL either way).  Returns the list of destroyed
filters in destruction order together with the resulting pointer. -/
def avfilter_graph_free :
    Option AVFilterGraph → List AVFilterContext × Option AVFilterGraph
  | none => ([], none)
  | some g => (free_order g.filters, none)

/-! ### avfilter_graph_add_filter / avfilter_graph_create_filter
(avfiltergraph.c:60-92) -/

/-- avfilter_graph_add_filter: grow the filter array (the realloc outcome
is the `allocOk` oracle) and append the filter. -/
def avfilter_graph_add_filter (allocOk : Bool) (st : GState)
    (filter : AVFilterContext) : Int × GState :=
  if allocOk then (0, appendFilter st filter)
  else (AVERROR ENOMEM, st)

/-- Modelled from the spec: avfilter_open (avfilter.c, not under src/)
rejects a NULL descriptor with AVERROR(EINVAL) and otherwise builds a
fresh unconnected context from the descriptor, failing with the
descriptor's modelled `open_ret` when that is negative (allocation
failure); on failure the output handle is NULL. -/
def avfilter_open (filt : Option AVFilter) (inst_name : String) :
    Int × Option AVFilterContext :=
  match filt with
  | none => (AVERROR EINVAL, none)
  | some f =>
    if f.open_ret < 0 then (f.open_ret, none)
    else
      (0, some
        { name := inst_name
          filterName := f.name
          query_formats := f.query_formats
          init_ret := f.init_ret
          input_pads := f.input_pad_names
          output_pads := f.output_pad_names
          inputs := List.replicate f.input_pad_names.length none
          outputs := List.replicate f.output_pad_names.length none })

/-- Modelled from the spec: avfilter_init_filter (avfilter.c, not under
src/) dispatches to the descriptor's init callback; its outcome is the
`init_ret` carried by the context (the args string and opaque context do
not influence any property proved here). -/
def avfilter_init_filter (c : AVFilterContext) (args : String) : Int :=
  let _ := args
  c.init_ret

/-- avfilter_graph_create_filter: open, init, add; on any failure the
partially built context is freed (avfilter_free — external; the context
value simply does not escape), the handle is set to NULL and the error is
returned; the graph is only changed by a successful add. -/
def avfilter_graph_create_filter (allocOk : Bool) (filt : Option AVFilter)
    (name args : String) (st : GState) :
    Int × Option AVFilterContext × GState :=
  match avfilter_open filt name with
  | (ret, none) => (ret, none, st)
  | (_, some c) =>
    if avfilter_init_filter c args < 0 then (avfilter_init_filter c args, none, st)
    else
      match avfilter_graph_add_filter allocOk st c with
      | (ret, st') => if ret < 0 then (ret, none, st) else (0, some c, st')

/-! ### Query phase (query_formats, avfiltergraph.c:157-163) -/

/-- Make an input pad's link reference set c on its destination side
(link->out_formats, what the pad's owner accepts). -/
def refInputPad (s : GState) (ol : Option Nat) (c : Nat) : GState :=
  match ol with
  | none => s
  | some lid =>
    match linkAt s lid with
    | none => s
    | some l => updLink s lid { l with out_formats := some c }

/-- Make an output pad's link reference set c on its source side
(link->in_formats, what the pad's owner offers). -/
def refOutputPad (s : GState) (ol : Option Nat) (c : Nat) : GState :=
  match ol with
  | none => s
  | some lid =>
    match linkAt s lid with
    | none => s
    | some l => updLink s lid { l with in_formats := some c }

/-- Modelled from the spec: the library's set_common_formats helper
(formats.c, not under src/) allocates one AVFilterFormats holding the
given candidates and makes every pad of filter k reference it: each input
link's out_formats and each output link's in_formats become the new shared
set. -/
def applyCommonFormats (st : GState) (k : Nat) (fl : List Int) : GState :=
  let c := st.fmts.length
  let st1 : GState := { st with fmts := st.fmts ++ [⟨fl⟩] }
  let f := filterAt st1 k
  let st2 := f.inputs.foldl (fun s ol => refInputPad s ol c) st1
  f.outputs.foldl (fun s ol => refOutputPad s ol c) st2

/-- Install a fresh set per input pad (each pad slot paired with its
candidate list). -/
def refInputsPerPad : GState → List (Option Nat) → List (List Int) → GState
  | st, [], _ => st
  | st, ol :: rest, fls =>
    let c := st.fmts.length
    let st1 : GState := { st with fmts := st.fmts ++ [⟨fls.headD []⟩] }
    refInputsPerPad (refInputPad st1 ol c) rest fls.tail

/-- Install a fresh set per output pad. -/
def refOutputsPerPad : GState → List (Option Nat) → List (List Int) → GState
  | st, [], _ => st
  | st, ol :: rest, fls =>
    let c := st.fmts.length
    let st1 : GState := { st with fmts := st.fmts ++ [⟨fls.headD []⟩] }
    refOutputsPerPad (refOutputPad st1 ol c) rest fls.tail

/-- Modelled from the spec: the state effect of a capability callback on
filter k's pads — populate the FormatSet of every pad, either through one
shared common set or through an independent set per pad. -/
def applyQFEffect (st : GState) (k : Nat) : QFEffect → GState
  | QFEffect.common fl => applyCommonFormats st k fl
  | QFEffect.perPad ins outs =>
    let f := filterAt st k
    refOutputsPerPad (refInputsPerPad st f.inputs ins) f.outputs outs

/-- One iteration of the query loop: call the filter's own capability
callback when present, else the default one (modelled from the spec:
avfilter_default_query_formats installs the environment's "all known
formats" list as a common set).  The `int` the callback returns (the first
component) is discarded, exactly as the C statements at
avfiltergraph.c:160 and :162 discard it. -/
def queryFilter (env : Env) (st : GState) (i : Nat) : GState :=
  match (filterAt st i).query_formats with
  | some qf => applyQFEffect st i qf.2
  | none => applyCommonFormats st i env.all_formats

/-- The query loop over filter indices. -/
def queryPhase_loop (env : Env) : GState → List Nat → GState
  | st, [] => st
  | st, i :: rest => queryPhase_loop env (queryFilter env st i) rest

/-- The first loop of query_formats (avfiltergraph.c:157-163): ask every
filter for its supported formats. -/
def queryPhase (env : Env) (st : GState) : GState :=
  queryPhase_loop env st (List.range st.graph.filters.length)

/-! ### Merging (avfilter_merge_formats, modelled) -/

/-- Redirect a format-set reference to the merged set when it referenced
either operand. -/
def mergeRedirect (a b m : Nat) (r : Option Nat) : Option Nat :=
  if r = some a || r = some b then some m else r

/-- Modelled from the spec: avfilter_merge_formats (formats.c, not under
src/) intersects the two candidate sets; on success one shared merged set
is allocated and every reference to either operand (from any link) is
redirected to it; on an empty intersection it fails and the state is
untouched.  A NULL operand is modelled as failure (the C code would fault;
no reachable state passes NULL). -/
def avfilter_merge_formats (st : GState) :
    Option Nat → Option Nat → Option GState
  | some a, some b =>
    let fa := fmtsIdx st a
    let fb := fmtsIdx st b
    let inter := fa.filter (fun x => fb.contains x)
    if inter = [] then none
    else
      let m := st.fmts.length
      some
        { st with
          fmts := st.fmts ++ [⟨inter⟩]
          links := st.links.map (fun l =>
            { l with
              in_formats := mergeRedirect a b m l.in_formats
              out_formats := mergeRedirect a b m l.out_formats }) }
  | _, _ => none

/-! ### Auto-insertion (avfilter_insert_filter, modelled; query_formats
conversion branch, avfiltergraph.c:174-222) -/

/-- Modelled from the spec: avfilter_insert_filter (avfilter.c, not under
src/) splices filter convIdx into link lid: the link's destination becomes
the converter's input pad 0, a new link goes from the converter's output
pad 0 to the old destination pad, the old destination's input slot is
rebound to the new link, and the candidate set the old link held on its
destination side moves to the new link's destination side
(avfilter_formats_changeref).  Returns the new link's id. -/
def avfilter_insert_filter (st : GState) (lid : Nat) (convIdx : Nat) :
    Int × GState × Nat :=
  match linkAt st lid with
  | none => (AVERROR EINVAL, st, 0)
  | some l =>
    let newlid := st.links.length
    let newlink : AVFilterLink :=
      { src := some convIdx, srcpad := 0, dst := l.dst, dstpad := l.dstpad,
        type := l.type, in_formats := none, out_formats := l.out_formats,
        format := -1 }
    let l' : AVFilterLink :=
      { l with dst := some convIdx, dstpad := 0, out_formats := none }
    let st1 : GState := { st with links := st.links.set lid l' ++ [newlink] }
    let st2 :=
      match l.dst with
      | none => st1
      | some d =>
        let fd := filterAt st1 d
        updFilter st1 d { fd with inputs := fd.inputs.set l.dstpad (some newlid) }
    let fc := filterAt st2 convIdx
    let st3 := updFilter st2 convIdx
      { fc with inputs := fc.inputs.set 0 (some lid),
                outputs := fc.outputs.set 0 (some newlid) }
    (0, st3, newlid)

/-- The call `convert->filter->query_formats(convert)` at
avfiltergraph.c:213: apply the converter's capability callback, discarding
the int it returns.  A converter without a callback is modelled as a
no-op (the C code would fault; the scale and resample filters both define
the callback). -/
def applyConvQuery (st : GState) (convIdx : Nat) : GState :=
  match (filterAt st convIdx).query_formats with
  | some qf => applyQFEffect st convIdx qf.2
  | none => st

/-- The tail of the conversion branch (avfiltergraph.c:210-222), after the
converter has been created: splice it into the link, run its capability
callback, and merge both sub-links; either merge failing is the
"impossible to convert" error. -/
def spliceAndMerge (st : GState) (lid : Nat) : Sum (Int × GState) GState :=
  let convIdx := st.graph.filters.length - 1
  match avfilter_insert_filter st lid convIdx with
  | (r, stF, _) =>
    if r < 0 then Sum.inl (r, stF)
    else
      let st3 := applyConvQuery stF convIdx
      match (filterAt st3 convIdx).inputs.getD 0 none with
      | none => Sum.inl (AVERROR EINVAL, st3)
      | some ilid =>
        match linkAt st3 ilid with
        | none => Sum.inl (AVERROR EINVAL, st3)
        | some il =>
          match avfilter_merge_formats st3 il.in_formats il.out_formats with
          | none => Sum.inl (AVERROR EINVAL, st3)
          | some st4 =>
            match (filterAt st4 convIdx).outputs.getD 0 none with
            | none => Sum.inl (AVERROR EINVAL, st4)
            | some olid =>
              match linkAt st4 olid with
              | none => Sum.inl (AVERROR EINVAL, st4)
              | some ol =>
                match avfilter_merge_formats st4 ol.in_formats ol.out_formats with
                | none => Sum.inl (AVERROR EINVAL, st4)
                | some st5 => Sum.inr st5

/-- The merge loop of query_formats (avfiltergraph.c:166-226): for each
filter (the bound re-read every iteration, so freshly appended converters
are processed too) and each input link whose two candidate-set references
are not the identical object, merge; on an unmergeable link auto-insert a
converter according to the link's media type, threading the scaler and
resampler counters.  One unit of fuel is spent per loop step. -/
def mergeLoop (env : Env) :
    Nat → GState → Nat → Nat → Nat → Nat → Int × GState
  | 0, st, _, _, _, _ => (FUEL_EXHAUSTED, st)
  | fuel + 1, st, i, j, sc, rc =>
    if i < st.graph.filters.length then
      let f := filterAt st i
      if j < f.inputs.length then
        match f.inputs.getD j none with
        | none => mergeLoop env fuel st i (j + 1) sc rc
        | some lid =>
          match linkAt st lid with
          | none => mergeLoop env fuel st i (j + 1) sc rc
          | some l =>
            if l.in_formats = l.out_formats then
              mergeLoop env fuel st i (j + 1) sc rc
            else
              match avfilter_merge_formats st l.in_formats l.out_formats with
              | some st' => mergeLoop env fuel st' i (j + 1) sc rc
              | none =>
                match l.type with
                | AVMediaType.video =>
                  let inst_name := "auto-inserted scaler " ++ toString sc
                  let scale_args := "0:0:" ++ st.graph.scale_sws_opts
                  match avfilter_graph_create_filter env.allocOk
                      (env.catalog "scale") inst_name scale_args st with
                  | (ret, _, st1) =>
                    if ret < 0 then (ret, st1)
                    else
                      match spliceAndMerge st1 lid with
                      | Sum.inl e => e
                      | Sum.inr st' => mergeLoop env fuel st' i (j + 1) (sc + 1) rc
                | AVMediaType.audio =>
                  match env.catalog "resample" with
                  | none => (AVERROR EINVAL, st)
                  | some _ =>
                    let inst_name := "auto-inserted resampler " ++ toString rc
                    match avfilter_graph_create_filter env.allocOk
                        (env.catalog "resample") inst_name "" st with
                    | (ret, _, st1) =>
                      if ret < 0 then (ret, st1)
                      else
                        match spliceAndMerge st1 lid with
                        | Sum.inl e => e
                        | Sum.inr st' => mergeLoop env fuel st' i (j + 1) sc (rc + 1)
                | AVMediaType.other => (AVERROR EINVAL, st)
      else mergeLoop env fuel st (i + 1) 0 sc rc
    else (0, st)

/-- Fuel that exceeds every reachable step count of the merge loop. -/
def mergeFuel (st : GState) : Nat :=
  4 * (st.graph.filters.length + totalInputs st + 1)

/-- query_formats (avfiltergraph.c:152-229): the query loop followed by
the merge loop, both converter counters starting at 0. -/
def query_formats (env : Env) (st : GState) : Int × GState :=
  let st1 := queryPhase env st
  mergeLoop env (mergeFuel st1) st1 0 0 0 0

/-! ### reduce_formats (avfiltergraph.c:243-284) -/

/-- The inner j/k loops of reduce_formats_on_filter for one already-pinned
input link: scan the filter's output links; on one of the same media type
whose destination-side set still has several candidates and contains the
pinned format, pin that set to the singleton. -/
def rf_inner (fidx : Nat) (ty : AVMediaType) (format : Int) :
    GState → Bool → List Nat → GState × Bool
  | st, acc, [] => (st, acc)
  | st, acc, j :: rest =>
    match (filterAt st fidx).outputs.getD j none with
    | none => rf_inner fidx ty format st acc rest
    | some olid =>
      match linkAt st olid with
      | none => rf_inner fidx ty format st acc rest
      | some ol =>
        if ty ≠ ol.type then rf_inner fidx ty format st acc rest
        else
          match ol.in_formats with
          | none => rf_inner fidx ty format st acc rest
          | some fref =>
            if (fmtsIdx st fref).length = 1 then
              rf_inner fidx ty format st acc rest
            else if (fmtsIdx st fref).contains format then
              rf_inner fidx ty format (updFmts st fref [format]) true rest
            else rf_inner fidx ty format st acc rest

/-- The outer i loop of reduce_formats_on_filter: for each input link
whose source-side set is a singleton, propagate its format. -/
def rf_outer (fidx : Nat) : GState → Bool → List Nat → GState × Bool
  | st, acc, [] => (st, acc)
  | st, acc, i :: rest =>
    match (filterAt st fidx).inputs.getD i none with
    | none => rf_outer fidx st acc rest
    | some lid =>
      match linkAt st lid with
      | none => rf_outer fidx st acc rest
      | some l =>
        let format := (fmtsOf st l.out_formats).headI
        if (fmtsOf st l.out_formats).length ≠ 1 then rf_outer fidx st acc rest
        else
          match rf_inner fidx l.type format st acc
              (List.range (filterAt st fidx).outputs.length) with
          | (st', acc') => rf_outer fidx st' acc' rest

/-- reduce_formats_on_filter (avfiltergraph.c:243-272); the Bool is the
function's `ret`. -/
def reduce_formats_on_filter (st : GState) (fidx : Nat) : GState × Bool :=
  rf_outer fidx st false (List.range (filterAt st fidx).inputs.length)

/-- One full pass of the do-while in reduce_formats: `reduced |=` over all
filters. -/
def reduce_pass_loop : GState → Bool → List Nat → GState × Bool
  | st, acc, [] => (st, acc)
  | st, acc, i :: rest =>
    match reduce_formats_on_filter st i with
    | (st', r) => reduce_pass_loop st' (acc || r) rest

/-- One full pass over all filters. -/
def reduce_pass (st : GState) : GState × Bool :=
  reduce_pass_loop st false (List.range st.graph.filters.length)

/-- The do-while of reduce_formats, with fuel; returns the final state and
the number of passes executed. -/
def reduce_loop : GState → Nat → GState × Nat
  | st, 0 => (st, 0)
  | st, fuel + 1 =>
    match reduce_pass st with
    | (st', true) =>
      match reduce_loop st' fuel with
      | (st'', n) => (st'', n + 1)
    | (st', false) => (st', 1)

/-- Fuel that provably suffices for the reduce fixpoint (each pass that
reports a change strictly shrinks the total candidate count). -/
def reduceFuel (st : GState) : Nat :=
  totalFormatCount st + 1

/-- reduce_formats (avfiltergraph.c:274-284). -/
def reduce_formats (st : GState) : GState :=
  (reduce_loop st (reduceFuel st)).1

/-- Number of passes the do-while of reduce_formats executes. -/
def reduce_iters (st : GState) : Nat :=
  (reduce_loop st (reduceFuel st)).2

/-! ### pick_format / pick_formats (avfiltergraph.c:231-241, 286-298) -/

/-- pick_format: a no-op on a NULL link or a link whose in_formats
reference was already released; otherwise pin the referenced set to its
first candidate, store that candidate as the link's concrete format, and
release both references (avfilter_formats_unref NULLs the stored
pointers). -/
def pick_format (st : GState) (ol : Option Nat) : GState :=
  match ol with
  | none => st
  | some lid =>
    match linkAt st lid with
    | none => st
    | some l =>
      match l.in_formats with
      | none => st
      | some fi =>
        let f := (fmtsIdx st fi).headI
        let st1 := updFmts st fi [f]
        updLink st1 lid
          { l with format := f, in_formats := none, out_formats := none }

/-- Apply pick_format to each pad slot of a list. -/
def pick_list : GState → List (Option Nat) → GState
  | st, [] => st
  | st, ol :: rest => pick_list (pick_format st ol) rest

/-- The filter loop of pick_formats: each filter's input pads, then its
output pads. -/
def pick_filters : GState → List Nat → GState
  | st, [] => st
  | st, i :: rest =>
    let f := filterAt st i
    pick_filters (pick_list (pick_list st f.inputs) f.outputs) rest

/-- pick_formats (avfiltergraph.c:286-298). -/
def pick_formats (st : GState) : GState :=
  pick_filters st (List.range st.graph.filters.length)

/-! ### ff_avfilter_graph_config_formats / config_links / graph_config
(avfiltergraph.c:124-139, 300-330) -/

/-- ff_avfilter_graph_config_formats: query and merge, then reduce, then
pick. -/
def ff_avfilter_graph_config_formats (env : Env) (st : GState) :
    Int × GState :=
  match query_formats env st with
  | (ret, st1) =>
    if ret < 0 then (ret, st1)
    else (0, pick_formats (reduce_formats st1))

/-- The filter loop of ff_avfilter_graph_config_links.  `cl` is
`Modelled from the spec:` avfilter_config_links (avfilter.c, not under
src/), the per-node link-parameter computation; it is modelled by the
error code it returns for each filter index (the link dimensions it would
compute are outside this model). -/
def config_links_loop (cl : Nat → Int) (st : GState) : List Nat → Int
  | [] => 0
  | i :: rest =>
    if (filterAt st i).outputs.length = 0 then
      if cl i ≠ 0 then cl i else config_links_loop cl st rest
    else config_links_loop cl st rest

/-- ff_avfilter_graph_config_links: run the collaborator's link
configuration from every filter with no output pads. -/
def ff_avfilter_graph_config_links (cl : Nat → Int) (st : GState) : Int :=
  config_links_loop cl st (List.range st.graph.filters.length)

/-- avfilter_graph_config (avfiltergraph.c:318-330): validity check, then
format negotiation, then link configuration, stopping at the first phase
returning nonzero. -/
def avfilter_graph_config (env : Env) (cl : Nat → Int) (st : GState) :
    Int × GState :=
  let r1 := (ff_avfilter_graph_check_validity st).1
  if r1 ≠ 0 then (r1, st)
  else
    match ff_avfilter_graph_config_formats env st with
    | (r2, st2) =>
      if r2 ≠ 0 then (r2, st2)
      else
        let r3 := ff_avfilter_graph_config_links cl st2
        if r3 ≠ 0 then (r3, st2) else (0, st2)

/-! ### Concrete inputs used by the witness theorems -/

/-- A video source context offering formats 2 and 5 on one output pad. -/
def wSrc : AVFilterContext :=
  { name := "src", filterName := "testsrc",
    query_formats := some (0, QFEffect.common [2, 5]), init_ret := 0,
    input_pads := [], output_pads := ["default"],
    inputs := [], outputs := [some 0] }

/-- A video sink context accepting only format 5 on one input pad. -/
def wSink : AVFilterContext :=
  { name := "sink", filterName := "testsink",
    query_formats := some (0, QFEffect.common [5]), init_ret := 0,
    input_pads := ["default"], output_pads := [],
    inputs := [some 0], outputs := [] }

/-- The single link of the witness graphs: source pad 0 to sink pad 0. -/
def wLink : AVFilterLink :=
  { src := some 0, srcpad := 0, dst := some 1, dstpad := 0,
    type := AVMediaType.video, in_formats := none, out_formats := none,
    format := -1 }

/-- Two-filter one-link witness graph (the spec's scenario A). -/
def wStA : GState :=
  { graph := { filters := [wSrc, wSink], scale_sws_opts := "opts" },
    links := [wLink], fmts := [] }

/-- An environment with an empty catalog. -/
def wEnv : Env :=
  { catalog := fun _ => none, all_formats := [], allocOk := true }

/-- A sink context whose input pad is not connected to any link. -/
def wBadSink : AVFilterContext := { wSink with inputs := [none] }

/-- Graph whose second filter has an unconnected input pad. -/
def wStBad : GState :=
  { graph := { filters := [wSrc, wBadSink], scale_sws_opts := "" },
    links := [wLink], fmts := [] }

/-- An audio link with disjoint merged-in candidate sets already
installed: source side offers store entry 0, destination side accepts
store entry 1. -/
def wALink : AVFilterLink :=
  { src := some 0, srcpad := 0, dst := some 1, dstpad := 0,
    type := AVMediaType.audio, in_formats := some 0, out_formats := some 1,
    format := -1 }

/-- Post-query audio state in which the only link's two candidate sets are
disjoint: entry 0 holds [8], entry 1 holds [9]. -/
def wStAud : GState :=
  { graph := { filters := [{ wSrc with filterName := "anullsrc" },
                           { wSink with filterName := "anullsink" }],
               scale_sws_opts := "" },
    links := [wALink], fmts := [⟨[8]⟩, ⟨[9]⟩] }

/-- A descriptor whose init callback fails with -3. -/
def wBadInitF : AVFilter :=
  { name := "badinit", query_formats := none, open_ret := 0, init_ret := -3,
    input_pad_names := ["default"], output_pad_names := ["default"] }

/-! ### Specification-side predicates for the validity check -/

/-- Following the spec: input pad j of filter f is bound to a link with a
resolved source node. -/
def InputBound (st : GState) (f : AVFilterContext) (j : Nat) : Prop :=
  ∃ lid l s, f.inputs.getD j none = some lid ∧ linkAt st lid = some l ∧
    l.src = some s

/-- Following the spec: output pad j of filter f is bound to a link with a
resolved destination node. -/
def OutputBound (st : GState) (f : AVFilterContext) (j : Nat) : Prop :=
  ∃ lid l d, f.outputs.getD j none = some lid ∧ linkAt st lid = some l ∧
    l.dst = some d

/-- Every pad of one filter is bound. -/
def FilterBound (st : GState) (f : AVFilterContext) : Prop :=
  (∀ j, j < f.inputs.length → InputBound st f j) ∧
  (∀ j, j < f.outputs.length → OutputBound st f j)

/-- Following the spec: every node's every pad is bound to a resolved
link. -/
def SpecAllBound (st : GState) : Prop :=
  ∀ f ∈ st.graph.filters, FilterBound st f

/-- The converter-name sequences an interleaved run of the two counters
can produce, starting from scaler counter s and resampler counter r: each
video insertion contributes "auto-inserted scaler s" and bumps only the
scaler counter, each audio insertion contributes "auto-inserted resampler
r" and bumps only the resampler counter. -/
inductive ConverterNames : Nat → Nat → List String → Prop
  | nil : ∀ s r, ConverterNames s r []
  | scaler : ∀ s r ns, ConverterNames (s + 1) r ns →
      ConverterNames s r (("auto-inserted scaler " ++ toString s) :: ns)
  | resampler : ∀ s r ns, ConverterNames s (r + 1) ns →
      ConverterNames s r (("auto-inserted resampler " ++ toString r) :: ns)

/-- Replace the error code a context's queryFormats callback returns,
keeping its state effect (used to express that the code is discarded). -/
def setCtxQfErr (c : AVFilterContext) (e : Int) : AVFilterContext :=
  { c with query_formats := c.query_formats.map (fun p => (e, p.2)) }

/-- Replace the error code filter i's queryFormats callback returns. -/
def setQfErr (st : GState) (i : Nat) (e : Int) : GState :=
  match st.graph.filters.get? i with
  | none => st
  | some c => updFilter st i (setCtxQfErr c e)

/-- A pad-less filter whose queryFormats callback reports error -5 while
still installing candidate list [7]. -/
def wErrF : AVFilterContext :=
  { name := "a", filterName := "t",
    query_formats := some (-5, QFEffect.common [7]), init_ret := 0,
    input_pads := [], output_pads := [], inputs := [], outputs := [] }

/-- Graph whose only filter's queryFormats callback reports an error. -/
def wStErr : GState :=
  { graph := { filters := [wErrF], scale_sws_opts := "" },
    links := [], fmts := [] }

/-- Post-merge sharing: every live link's two candidate-set references are
the identical object (avfilter_merge_formats redirects both to the one
merged set), which is the shape of every state the Reduce phase runs on. -/
def MergedRefs (st : GState) : Prop :=
  ∀ lid l, linkAt st lid = some l → l.in_formats = l.out_formats

/-- Number of links whose source-side candidate set still has more than
one candidate (the measure that each changing Reduce pass strictly
decreases). -/
def multiLinkCount (st : GState) : Nat :=
  st.links.countP (fun l => decide (1 < (fmtsOf st l.in_formats).length))

/-- The state relation every piece of a Reduce pass respects: links,
graph and the format-store size are untouched, and each format set is
either unchanged or pinned to a singleton it strictly contained, the
pinned set being referenced by some link's in_formats. -/
def RfRel (st st' : GState) : Prop :=
  st'.links = st.links ∧ st'.graph = st.graph ∧
  st'.fmts.length = st.fmts.length ∧
  ∀ kk, fmtsIdx st' kk = fmtsIdx st kk ∨
    ((fmtsIdx st' kk).length = 1 ∧ 1 < (fmtsIdx st kk).length ∧
     fmtsIdx st' kk ⊆ fmtsIdx st kk ∧
     ∃ olid ol, linkAt st olid = some ol ∧ ol.in_formats = some kk)

/-- A pass that reported a change pinned at least one multi-candidate set
(referenced from some link) down to a singleton. -/
def PinWitness (st st' : GState) : Prop :=
  ∃ kk, 1 < (fmtsIdx st kk).length ∧ (fmtsIdx st' kk).length = 1 ∧
    ∃ olid ol, linkAt st olid = some ol ∧ ol.in_formats = some kk

/-- A graph with one pad-less filter and no links (reduce still executes
one full pass on it). -/
def wStZ : GState :=
  { graph := { filters := [{ wSrc with outputs := [], output_pads := [] }],
               scale_sws_opts := "" },
    links := [], fmts := [] }

/-- A merged two-filter state: the single link's two references share set
0, which holds two candidates. -/
def wStRed : GState :=
  { graph := { filters := [wSrc, wSink], scale_sws_opts := "" },
    links := [{ wLink with in_formats := some 0, out_formats := some 0 }],
    fmts := [⟨[2, 5]⟩] }

/-- All pad slots pick_formats traverses, in traversal order: for each
filter in insertion order its input slots then its output slots. -/
def visitSlots (st : GState) : List (Option Nat) :=
  st.graph.filters.flatMap (fun c => c.inputs ++ c.outputs)

/-- How often link lid is visited by a pick_formats traversal. -/
def countVisits (st : GState) (lid : Nat) : Nat :=
  (visitSlots st).count (some lid)

/-- A well-formed graph: every link in the store has resolved endpoints,
is registered at its source filter's output pad and its destination
filter's input pad, and appears exactly once among all input slots and
exactly once among all output slots. -/
def GraphWF (st : GState) : Prop :=
  ∀ lid, lid < st.links.length →
    ∃ l, linkAt st lid = some l ∧
      (∃ s, l.src = some s ∧ s < st.graph.filters.length ∧
        (filterAt st s).outputs.getD l.srcpad none = some lid) ∧
      (∃ d, l.dst = some d ∧ d < st.graph.filters.length ∧
        (filterAt st d).inputs.getD l.dstpad none = some lid) ∧
      (st.graph.filters.map (fun c => c.inputs.count (some lid))).sum = 1 ∧
      (st.graph.filters.map (fun c => c.outputs.count (some lid))).sum = 1

/-- The value pick_format stores for a link whose in_formats referenced
set fi in state st0: the set's first candidate, with both references
released. -/
def pickedLink (st0 : GState) (fi : Nat) (l : AVFilterLink) : AVFilterLink :=
  { l with format := (fmtsIdx st0 fi).headI,
           in_formats := none, out_formats := none }

/-- Invariant of the pick traversal relative to its start state st0: the
graph is untouched, the link store keeps its size, each format set is
unchanged or pinned to its own first candidate, and each link is either
still untouched or already picked. -/
def PickRel (st0 st : GState) : Prop :=
  st.graph = st0.graph ∧ st.links.length = st0.links.length ∧
  (∀ k, fmtsIdx st k = fmtsIdx st0 k ∨
    fmtsIdx st k = [(fmtsIdx st0 k).headI]) ∧
  (∀ lid l0, linkAt st0 lid = some l0 →
    linkAt st lid = some l0 ∨
    (∃ fi, l0.in_formats = some fi ∧
      linkAt st lid = some (pickedLink st0 fi l0)))

/-- Link lid has been picked (relative to start state st0). -/
def PickedAt (st0 : GState) (lid : Nat) (st : GState) : Prop :=
  ∃ l0 fi, linkAt st0 lid = some l0 ∧ l0.in_formats = some fi ∧
    linkAt st lid = some (pickedLink st0 fi l0)

/-! ## Theorems -/

theorem free_order_eq_reverse_aux :
    ∀ (n : Nat) (l : List AVFilterContext), l.length ≤ n → free_order l = l.reverse := by
  intro n
  induction n with
  | zero =>
    intro l h
    match l with
    | [] => simp [free_order]
  | succ n ih =>
    intro l h
    match l with
    | [] => simp [free_order]
    | f :: fs =>
      rw [free_order]
      rw [ih ((f :: fs).dropLast) (by simp [List.length_dropLast] at h ⊢; omega)]
      have hsplit := (List.dropLast_append_getLast (show (f :: fs) ≠ [] from by simp)).symm
      conv_rhs => rw [hsplit]
      rw [List.reverse_append]
      simp

theorem free_order_eq_reverse (l : List AVFilterContext) :
    free_order l = l.reverse :=
  free_order_eq_reverse_aux l.length l (Nat.le_refl _)

/-- C9: avfilter_graph_free destroys the filters in strict reverse
insertion order and leaves a NULL graph pointer; it is safe on an empty
graph, and a no-op on an already-freed (NULL) graph. -/
theorem avfilter_graph_free_lifo :
    avfilter_graph_free none = ([], none) ∧
    (∀ g : AVFilterGraph,
      avfilter_graph_free (some g) = (g.filters.reverse, none)) ∧
    avfilter_graph_free (some { filters := [], scale_sws_opts := "" }) =
      ([], none) := by
  refine ⟨rfl, fun g => ?_, ?_⟩
  · simp [avfilter_graph_free, free_order_eq_reverse]
  · simp [avfilter_graph_free, free_order_eq_reverse]

/-- C3: avfilter_graph_config runs the validity check, then format
negotiation, then link configuration, in that order; a phase returning
nonzero makes it return that phase's value unchanged with the following
phases never consulted (the result does not depend on them), and if all
three phases return zero it returns zero. -/
theorem avfilter_graph_config_phases (st : GState) :
    ((ff_avfilter_graph_check_validity st).1 ≠ 0 →
      ∀ env cl, avfilter_graph_config env cl st =
        ((ff_avfilter_graph_check_validity st).1, st)) ∧
    ((ff_avfilter_graph_check_validity st).1 = 0 →
      ∀ env,
        ((ff_avfilter_graph_config_formats env st).1 ≠ 0 →
          ∀ cl, avfilter_graph_config env cl st =
            ff_avfilter_graph_config_formats env st) ∧
        ((ff_avfilter_graph_config_formats env st).1 = 0 →
          ∀ cl,
            (ff_avfilter_graph_config_links cl
                (ff_avfilter_graph_config_formats env st).2 ≠ 0 →
              avfilter_graph_config env cl st =
                (ff_avfilter_graph_config_links cl
                  (ff_avfilter_graph_config_formats env st).2,
                 (ff_avfilter_graph_config_formats env st).2)) ∧
            (ff_avfilter_graph_config_links cl
                (ff_avfilter_graph_config_formats env st).2 = 0 →
              avfilter_graph_config env cl st =
                (0, (ff_avfilter_graph_config_formats env st).2)))) := by
  constructor
  · intro h env cl
    simp [avfilter_graph_config, h]
  · intro h env
    constructor
    · intro h2 cl
      rcases hf : ff_avfilter_graph_config_formats env st with ⟨r2, st2⟩
      rw [hf] at h2
      simp only at h2
      simp [avfilter_graph_config, h, hf, h2]
    · intro h2 cl
      rcases hf : ff_avfilter_graph_config_formats env st with ⟨r2, st2⟩
      rw [hf] at h2
      simp only at h2
      subst h2
      constructor
      · intro h3
        simp only at h3 ⊢
        simp [avfilter_graph_config, h, hf, h3]
      · intro h3
        simp only at h3 ⊢
        simp [avfilter_graph_config, h, hf, h3]

/-- Witness for the phase-order theorem: on a graph whose second filter
has an unconnected input pad, configuration returns the validity check's
AVERROR(EINVAL) with the state untouched, whatever the later phases'
collaborators would do. -/
theorem avfilter_graph_config_phases_witness :
    avfilter_graph_config wEnv (fun _ => -77) wStBad = (AVERROR EINVAL, wStBad) := by
  have h := (avfilter_graph_config_phases wStBad).1 (by decide) wEnv (fun _ => -77)
  simpa using h

/-- C8: avfilter_graph_create_filter is atomic.  If open fails the open
error is returned with a NULL handle and an untouched graph; if init fails
likewise with the init error; if the append allocation fails likewise with
AVERROR(ENOMEM); and on success the freshly opened context is appended to
the graph's filter sequence and 0 is returned. -/
theorem avfilter_graph_create_filter_atomic (allocOk : Bool)
    (filt : Option AVFilter) (name args : String) (st : GState) :
    (∀ e, avfilter_open filt name = (e, none) →
      avfilter_graph_create_filter allocOk filt name args st = (e, none, st)) ∧
    (∀ c, avfilter_open filt name = (0, some c) →
      (avfilter_init_filter c args < 0 →
        avfilter_graph_create_filter allocOk filt name args st =
          (avfilter_init_filter c args, none, st)) ∧
      (0 ≤ avfilter_init_filter c args →
        (allocOk = false →
          avfilter_graph_create_filter allocOk filt name args st =
            (AVERROR ENOMEM, none, st)) ∧
        (allocOk = true →
          avfilter_graph_create_filter allocOk filt name args st =
            (0, some c, appendFilter st c)))) := by
  constructor
  · intro e he
    simp [avfilter_graph_create_filter, he]
  · intro c hc
    constructor
    · intro hinit
      simp [avfilter_graph_create_filter, hc, hinit]
    · intro hinit
      have hlt : ¬ avfilter_init_filter c args < 0 := not_lt.mpr hinit
      constructor
      · intro ha
        subst ha
        simp [avfilter_graph_create_filter, hc, hlt,
          avfilter_graph_add_filter, AVERROR, ENOMEM]
      · intro ha
        subst ha
        simp [avfilter_graph_create_filter, hc, hlt, avfilter_graph_add_filter]

/-- Witness for create-filter atomicity: a descriptor whose init fails
with -3 leaves the graph untouched and yields a NULL handle; with init
succeeding, the context is appended. -/
theorem avfilter_graph_create_filter_atomic_witness :
    avfilter_graph_create_filter true (some wBadInitF) "n" "a" wStA =
      (-3, none, wStA) := by
  have h :=
    ((avfilter_graph_create_filter_atomic true (some wBadInitF) "n" "a" wStA).2
      { name := "n", filterName := "badinit", query_formats := none,
        init_ret := -3, input_pads := ["default"], output_pads := ["default"],
        inputs := [none], outputs := [none] } (by decide)).1 (by decide)
  simpa using h

/-- C7: when the merge loop reaches an audio link whose candidate sets
have an empty intersection and the catalog has no "resample" filter, it
fails immediately with AVERROR(EINVAL) and the whole state — in
particular the graph's node sequence — is exactly the state it had before
the failing step; a link of a media kind other than audio or video with an
empty intersection likewise fails with AVERROR(EINVAL) changing nothing. -/
theorem query_formats_conversion_failure (env : Env) (fuel : Nat)
    (st : GState) (i j sc rc lid : Nat) (l : AVFilterLink)
    (hi : i < st.graph.filters.length)
    (hj : j < (filterAt st i).inputs.length)
    (hslot : (filterAt st i).inputs.getD j none = some lid)
    (hlink : linkAt st lid = some l)
    (hne : l.in_formats ≠ l.out_formats)
    (hmerge : avfilter_merge_formats st l.in_formats l.out_formats = none) :
    (l.type = AVMediaType.audio → env.catalog "resample" = none →
      mergeLoop env (fuel + 1) st i j sc rc = (AVERROR EINVAL, st)) ∧
    (l.type = AVMediaType.other →
      mergeLoop env (fuel + 1) st i j sc rc = (AVERROR EINVAL, st)) := by
  have hslot2 : (filterAt st i).inputs[j] = some lid := by
    rw [List.getD_eq_getElem?_getD, List.getElem?_eq_getElem hj] at hslot
    simpa using hslot
  constructor
  · intro hty hcat
    simp [mergeLoop, hi, hj, hslot2, hlink, hne, hmerge, hty, hcat]
  · intro hty
    simp [mergeLoop, hi, hj, hslot2, hlink, hne, hmerge, hty]

/-- Witness for the conversion-failure theorem: a post-query audio graph
whose source offers only format 8 and whose sink accepts only format 9,
with no "resample" in the catalog, makes the merge loop return
AVERROR(EINVAL) with the state unchanged. -/
theorem query_formats_conversion_failure_witness :
    mergeLoop wEnv 7 wStAud 1 0 0 0 = (AVERROR EINVAL, wStAud) := by
  have h :=
    (query_formats_conversion_failure wEnv 6 wStAud 1 0 0 0 0 wALink
      (by decide) (by decide) (by decide) (by decide) (by decide)
      (by decide)).1 rfl rfl
  simpa using h

theorem inputPadOk_iff (st : GState) (f : AVFilterContext) (j : Nat) :
    inputPadOk st f j = true ↔ InputBound st f j := by
  unfold inputPadOk InputBound
  rcases h : f.inputs.getD j none with _ | lid
  · simp [h]
  · rcases hl : linkAt st lid with _ | l
    · simp [h, hl]
    · simp [h, hl, Option.isSome_iff_exists]

theorem outputPadOk_iff (st : GState) (f : AVFilterContext) (j : Nat) :
    outputPadOk st f j = true ↔ OutputBound st f j := by
  unfold outputPadOk OutputBound
  rcases h : f.outputs.getD j none with _ | lid
  · simp [h]
  · rcases hl : linkAt st lid with _ | l
    · simp [h, hl]
    · simp [h, hl, Option.isSome_iff_exists]

theorem check_filter_eq_none_iff (st : GState) (f : AVFilterContext) :
    check_filter st f = none ↔ FilterBound st f := by
  unfold check_filter FilterBound
  rcases h1 : (List.range f.inputs.length).find?
      (fun j => !(inputPadOk st f j)) with _ | j
  · rcases h2 : (List.range f.outputs.length).find?
        (fun j => !(outputPadOk st f j)) with _ | j
    · rw [List.find?_eq_none] at h1 h2
      simp only [List.mem_range] at h1 h2
      simp only [true_iff]
      constructor
      · intro j hj
        have := h1 j hj
        rw [← inputPadOk_iff]
        simpa using this
      · intro j hj
        have := h2 j hj
        rw [← outputPadOk_iff]
        simpa using this
    · have hmem := List.mem_of_find?_eq_some h2
      have hp := List.find?_some h2
      simp only [List.mem_range] at hmem
      simp only [Bool.not_eq_eq_eq_not, Bool.not_true] at hp
      apply iff_of_false
      · simp
      · intro hb
        have := hb.2 j hmem
        rw [← outputPadOk_iff] at this
        simp [hp] at this
  · have hmem := List.mem_of_find?_eq_some h1
    have hp := List.find?_some h1
    simp only [List.mem_range] at hmem
    simp only [Bool.not_eq_eq_eq_not, Bool.not_true] at hp
    apply iff_of_false
    · simp
    · intro hb
      have := hb.1 j hmem
      rw [← inputPadOk_iff] at this
      simp [hp] at this

theorem find?_range_first (p : Nat → Bool) (j : Nat)
    (hpj : p j = true) (hprev : ∀ k, k < j → p k = false) :
    ∀ n, j < n → (List.range n).find? p = some j := by
  intro n
  induction n with
  | zero => intro h; omega
  | succ n ih =>
    intro hj
    rw [List.range_succ, List.find?_append]
    rcases Nat.lt_or_ge j n with h | h
    · rw [ih h]
      rfl
    · have hjn : j = n := by omega
      subst hjn
      have hnone : (List.range j).find? p = none := by
        rw [List.find?_eq_none]
        intro x hx
        simp only [List.mem_range] at hx
        simp [hprev x hx]
      rw [hnone]
      simp [List.find?_cons, hpj]

theorem check_filter_first_input (st : GState) (f : AVFilterContext)
    (j : Nat) (hj : j < f.inputs.length)
    (hprev : ∀ k, k < j → InputBound st f k) (hbad : ¬ InputBound st f j) :
    check_filter st f =
      some ⟨true, f.input_pads.getD j "", f.name, f.filterName⟩ := by
  unfold check_filter
  have hpj : (fun q => !(inputPadOk st f q)) j = true := by
    rw [← inputPadOk_iff] at hbad
    simpa using hbad
  have hkk : ∀ k, k < j → (fun q => !(inputPadOk st f q)) k = false :=
    fun k hk => by
      have := (inputPadOk_iff st f k).mpr (hprev k hk)
      simp [this]
  rw [find?_range_first _ j hpj hkk _ hj]

theorem check_filter_first_output (st : GState) (f : AVFilterContext)
    (hin : ∀ j, j < f.inputs.length → InputBound st f j)
    (j : Nat) (hj : j < f.outputs.length)
    (hprev : ∀ k, k < j → OutputBound st f k) (hbad : ¬ OutputBound st f j) :
    check_filter st f =
      some ⟨false, f.output_pads.getD j "", f.name, f.filterName⟩ := by
  unfold check_filter
  have h1 : (List.range f.inputs.length).find?
      (fun j => !(inputPadOk st f j)) = none := by
    rw [List.find?_eq_none]
    intro x hx
    simp only [List.mem_range] at hx
    have := (inputPadOk_iff st f x).mpr (hin x hx)
    simp [this]
  rw [h1]
  have hpj : (fun q => !(outputPadOk st f q)) j = true := by
    rw [← outputPadOk_iff] at hbad
    simpa using hbad
  have hkk : ∀ k, k < j → (fun q => !(outputPadOk st f q)) k = false :=
    fun k hk => by
      have := (outputPadOk_iff st f k).mpr (hprev k hk)
      simp [this]
  rw [find?_range_first _ j hpj hkk _ hj]

theorem check_loop_ok_iff (st : GState) :
    ∀ fs : List AVFilterContext,
      (check_loop st fs).1 = 0 ↔ ∀ f ∈ fs, FilterBound st f := by
  intro fs
  induction fs with
  | nil => simp [check_loop]
  | cons f rest ih =>
    rcases h : check_filter st f with _ | cf
    · have hb : FilterBound st f := (check_filter_eq_none_iff st f).mp h
      simp [check_loop, h, hb, ih]
    · have hnb : ¬ FilterBound st f := by
        intro hb
        rw [← check_filter_eq_none_iff] at hb
        simp [h] at hb
      apply iff_of_false
      · simp [check_loop, h]
        decide
      · intro hall
        exact hnb (hall f (List.mem_cons_self f rest))

theorem check_loop_first (st : GState) (cf : CheckFail) :
    ∀ (fs : List AVFilterContext) (i : Nat) (f : AVFilterContext),
      fs.get? i = some f →
      (∀ i' f', i' < i → fs.get? i' = some f' → FilterBound st f') →
      check_filter st f = some cf →
      check_loop st fs = (AVERROR EINVAL, some cf) := by
  intro fs
  induction fs with
  | nil => intro i f hget; simp at hget
  | cons g rest ih =>
    intro i f hget hprev hcf
    match i with
    | 0 =>
      simp only [List.get?] at hget
      injection hget with hget
      subst hget
      simp [check_loop, hcf]
    | i + 1 =>
      have hg : FilterBound st g := hprev 0 g (Nat.succ_pos i) rfl
      rw [← check_filter_eq_none_iff] at hg
      simp only [List.get?] at hget
      rw [check_loop, hg]
      exact ih i f hget
        (fun i' f' hi' hget' => hprev (i' + 1) f' (by omega) hget') hcf

/-- C4: ff_avfilter_graph_check_validity succeeds exactly when every
node's every input pad is bound to a link with a resolved source and every
output pad to a link with a resolved destination; on the first unmet pad
in traversal order (filters in insertion order, a filter's input pads in
index order before its output pads) it returns AVERROR(EINVAL) together
with that exact pad's identification (direction, pad name, filter name,
filter type name). -/
theorem check_validity_characterization (st : GState) :
    ((ff_avfilter_graph_check_validity st).1 = 0 ↔ SpecAllBound st) ∧
    (∀ i f, st.graph.filters.get? i = some f →
      (∀ i' f', i' < i → st.graph.filters.get? i' = some f' →
        FilterBound st f') →
      ((∀ j, j < f.inputs.length → (∀ k, k < j → InputBound st f k) →
        ¬ InputBound st f j →
        ff_avfilter_graph_check_validity st =
          (AVERROR EINVAL,
           some ⟨true, f.input_pads.getD j "", f.name, f.filterName⟩)) ∧
       ((∀ j, j < f.inputs.length → InputBound st f j) →
        ∀ j, j < f.outputs.length → (∀ k, k < j → OutputBound st f k) →
        ¬ OutputBound st f j →
        ff_avfilter_graph_check_validity st =
          (AVERROR EINVAL,
           some ⟨false, f.output_pads.getD j "", f.name, f.filterName⟩)))) := by
  constructor
  · rw [ff_avfilter_graph_check_validity, check_loop_ok_iff]
    rfl
  · intro i f hget hprev
    constructor
    · intro j hj hk hbad
      exact check_loop_first st _ _ i f hget hprev
        (check_filter_first_input st f j hj hk hbad)
    · intro hin j hj hk hbad
      exact check_loop_first st _ _ i f hget hprev
        (check_filter_first_output st f hin j hj hk hbad)

/-- Witness for the validity characterization: in the graph whose second
filter's only input pad is unconnected, the check fails identifying pad
"default" of filter "sink" of type "testsink". -/
theorem check_validity_characterization_witness :
    ff_avfilter_graph_check_validity wStBad =
      (AVERROR EINVAL, some ⟨true, "default", "sink", "testsink"⟩) := by
  have h := ((check_validity_characterization wStBad).2 1 wBadSink
    (by decide)
    (fun i' f' hi' hget' => by
      have hz : i' = 0 := by omega
      subst hz
      have hf' : f' = wSrc := by
        simp [wStBad] at hget'
        exact hget'.symm
      subst hf'
      constructor
      · intro j hj
        simp [wSrc] at hj
      · intro j hj
        have hz : j = 0 := by
          simp [wSrc] at hj
          omega
        subst hz
        exact ⟨0, wLink, 1, by decide, by decide, by decide⟩)).1 0
    (by decide)
    (fun k hk => absurd hk (Nat.not_lt_zero k))
    (fun hb => by
      obtain ⟨lid, l, s, h1, _, _⟩ := hb
      simp [wBadSink, wSink] at h1)
  simpa [wBadSink, wSink] using h

theorem list_set_getD {α : Type} (xs : List α) (d : α) :
    ∀ k, xs.set k (xs.getD k d) = xs := by
  induction xs with
  | nil => intro k; rfl
  | cons x xs ih =>
    intro k
    match k with
    | 0 => rfl
    | k + 1 =>
      show x :: xs.set k (xs.getD k d) = x :: xs
      rw [ih k]

theorem map_getD {α β : Type} (f : α → β) (xs : List α) (d : α) :
    ∀ k, (xs.map f).getD k (f d) = f (xs.getD k d) := by
  induction xs with
  | nil => intro k; rfl
  | cons x xs ih =>
    intro k
    match k with
    | 0 => rfl
    | k + 1 => simp

theorem filterNames_updFilter (st : GState) (k : Nat) (c : AVFilterContext)
    (h : c.name = (filterAt st k).name) :
    filterNames (updFilter st k c) = filterNames st := by
  unfold filterAt at h
  unfold filterNames updFilter
  rw [List.map_set, h,
    ← map_getD (fun c : AVFilterContext => c.name) st.graph.filters default k]
  exact list_set_getD _ _ _

theorem filterNames_updFilter_eta (st : GState) (k : Nat)
    (qf : Option (Int × QFEffect)) (ir : Int) (ip op : List String)
    (ins outs : List (Option Nat)) :
    filterNames (updFilter st k
      { name := (filterAt st k).name,
        filterName := (filterAt st k).filterName,
        query_formats := qf, init_ret := ir, input_pads := ip,
        output_pads := op, inputs := ins, outputs := outs }) =
      filterNames st :=
  filterNames_updFilter _ _ _ rfl

theorem refInputPad_graph (s : GState) (ol : Option Nat) (c : Nat) :
    (refInputPad s ol c).graph = s.graph := by
  unfold refInputPad
  rcases ol with _ | lid
  · rfl
  · rcases h : linkAt s lid with _ | l <;> simp [h, updLink]

theorem refOutputPad_graph (s : GState) (ol : Option Nat) (c : Nat) :
    (refOutputPad s ol c).graph = s.graph := by
  unfold refOutputPad
  rcases ol with _ | lid
  · rfl
  · rcases h : linkAt s lid with _ | l <;> simp [h, updLink]

theorem foldl_refInputPad_graph (c : Nat) :
    ∀ (l : List (Option Nat)) (s : GState),
      ((l.foldl (fun s ol => refInputPad s ol c) s)).graph = s.graph := by
  intro l
  induction l with
  | nil => intro s; rfl
  | cons ol rest ih =>
    intro s
    rw [List.foldl_cons, ih, refInputPad_graph]

theorem foldl_refOutputPad_graph (c : Nat) :
    ∀ (l : List (Option Nat)) (s : GState),
      ((l.foldl (fun s ol => refOutputPad s ol c) s)).graph = s.graph := by
  intro l
  induction l with
  | nil => intro s; rfl
  | cons ol rest ih =>
    intro s
    rw [List.foldl_cons, ih, refOutputPad_graph]

theorem applyCommonFormats_graph (st : GState) (k : Nat) (fl : List Int) :
    (applyCommonFormats st k fl).graph = st.graph := by
  unfold applyCommonFormats
  rw [foldl_refOutputPad_graph, foldl_refInputPad_graph]

theorem refInputsPerPad_graph :
    ∀ (ols : List (Option Nat)) (st : GState) (fls : List (List Int)),
      (refInputsPerPad st ols fls).graph = st.graph := by
  intro ols
  induction ols with
  | nil => intro st fls; rfl
  | cons ol rest ih =>
    intro st fls
    rw [refInputsPerPad, ih, refInputPad_graph]

theorem refOutputsPerPad_graph :
    ∀ (ols : List (Option Nat)) (st : GState) (fls : List (List Int)),
      (refOutputsPerPad st ols fls).graph = st.graph := by
  intro ols
  induction ols with
  | nil => intro st fls; rfl
  | cons ol rest ih =>
    intro st fls
    rw [refOutputsPerPad, ih, refOutputPad_graph]

theorem applyQFEffect_graph (st : GState) (k : Nat) (eff : QFEffect) :
    (applyQFEffect st k eff).graph = st.graph := by
  cases eff with
  | common fl => exact applyCommonFormats_graph st k fl
  | perPad ins outs =>
    unfold applyQFEffect
    rw [refOutputsPerPad_graph, refInputsPerPad_graph]

theorem applyConvQuery_graph (st : GState) (k : Nat) :
    (applyConvQuery st k).graph = st.graph := by
  unfold applyConvQuery
  rcases h : (filterAt st k).query_formats with _ | qf
  · rfl
  · exact applyQFEffect_graph st k qf.2

theorem merge_graph (st : GState) (a b : Option Nat) (st' : GState)
    (h : avfilter_merge_formats st a b = some st') : st'.graph = st.graph := by
  rcases a with _ | a
  · simp [avfilter_merge_formats] at h
  rcases b with _ | b
  · simp [avfilter_merge_formats] at h
  unfold avfilter_merge_formats at h
  simp at h
  rw [← h.2]

theorem insert_names (st : GState) (lid conv : Nat) :
    filterNames (avfilter_insert_filter st lid conv).2.1 = filterNames st := by
  unfold avfilter_insert_filter
  rcases h : linkAt st lid with _ | l
  · simp [h]
  · rcases hd : l.dst with _ | d
    · simp only [h, hd]
      rw [filterNames_updFilter_eta]
      rfl
    · simp only [h, hd]
      rw [filterNames_updFilter_eta, filterNames_updFilter_eta]
      rfl

theorem spliceAndMerge_names (st : GState) (lid : Nat) :
    (∀ e st', spliceAndMerge st lid = Sum.inl (e, st') →
      filterNames st' = filterNames st) ∧
    (∀ st', spliceAndMerge st lid = Sum.inr st' →
      filterNames st' = filterNames st) := by
  unfold spliceAndMerge
  rcases hins : avfilter_insert_filter st lid (st.graph.filters.length - 1)
    with ⟨r, stF, nl⟩
  have hF : filterNames stF = filterNames st := by
    have := insert_names st lid (st.graph.filters.length - 1)
    rw [hins] at this
    exact this
  have h3 : filterNames (applyConvQuery stF (st.graph.filters.length - 1)) =
      filterNames st := by
    unfold filterNames at hF ⊢
    rw [applyConvQuery_graph, ← hF]
  by_cases hr : r < 0
  · simp only [hins, hr, if_true]
    exact ⟨fun e st' he => by cases he; exact hF,
           fun st' he => by simp at he⟩
  · simp only [hins, hr, if_false]
    rcases hg0 : (filterAt (applyConvQuery stF (st.graph.filters.length - 1))
        (st.graph.filters.length - 1)).inputs.getD 0 none with _ | ilid
    · simp only [hg0]
      exact ⟨fun e st' he => by cases he; exact h3,
             fun st' he => by simp at he⟩
    · simp only [hg0]
      rcases hl1 : linkAt (applyConvQuery stF (st.graph.filters.length - 1)) ilid
        with _ | il
      · simp only [hl1]
        exact ⟨fun e st' he => by cases he; exact h3,
               fun st' he => by simp at he⟩
      · simp only [hl1]
        rcases hm1 : avfilter_merge_formats
            (applyConvQuery stF (st.graph.filters.length - 1))
            il.in_formats il.out_formats with _ | st4
        · simp only [hm1]
          exact ⟨fun e st' he => by cases he; exact h3,
                 fun st' he => by simp at he⟩
        · simp only [hm1]
          have h4 : filterNames st4 = filterNames st := by
            unfold filterNames at h3 ⊢
            rw [merge_graph _ _ _ _ hm1]
            exact h3
          rcases hg1 : (filterAt st4 (st.graph.filters.length - 1)).outputs.getD 0 none
            with _ | olid
          · simp only [hg1]
            exact ⟨fun e st' he => by cases he; exact h4,
                   fun st' he => by simp at he⟩
          · simp only [hg1]
            rcases hl2 : linkAt st4 olid with _ | ol2
            · simp only [hl2]
              exact ⟨fun e st' he => by cases he; exact h4,
                     fun st' he => by simp at he⟩
            · simp only [hl2]
              rcases hm2 : avfilter_merge_formats st4 ol2.in_formats ol2.out_formats
                with _ | st5
              · simp only [hm2]
                exact ⟨fun e st' he => by cases he; exact h4,
                       fun st' he => by simp at he⟩
              · simp only [hm2]
                refine ⟨fun e st' he => by simp at he, fun st' he => ?_⟩
                injection he with he
                rw [← he]
                unfold filterNames at h4 ⊢
                rw [merge_graph _ _ _ _ hm2]
                exact h4

theorem filterNames_appendFilter (st : GState) (c : AVFilterContext) :
    filterNames (appendFilter st c) = filterNames st ++ [c.name] := by
  simp [appendFilter, filterNames]

theorem avfilter_open_none (filt : Option AVFilter) (name : String)
    (ret : Int) (h : avfilter_open filt name = (ret, none)) : ret < 0 := by
  rcases filt with _ | f
  · simp [avfilter_open] at h
    rw [← h]
    decide
  · by_cases ho : f.open_ret < 0
    · simp [avfilter_open, ho] at h
      omega
    · simp [avfilter_open, ho] at h

theorem avfilter_open_some (filt : Option AVFilter) (name : String)
    (ret : Int) (c : AVFilterContext)
    (h : avfilter_open filt name = (ret, some c)) : ret = 0 ∧ c.name = name := by
  rcases filt with _ | f
  · simp [avfilter_open] at h
  · by_cases ho : f.open_ret < 0
    · simp [avfilter_open, ho] at h
    · simp [avfilter_open, ho] at h
      refine ⟨by omega, ?_⟩
      rw [← h.2]

theorem create_filter_names (allocOk : Bool) (filt : Option AVFilter)
    (name args : String) (st : GState) :
    ((avfilter_graph_create_filter allocOk filt name args st).1 < 0 ∧
     (avfilter_graph_create_filter allocOk filt name args st).2.2 = st) ∨
    ((avfilter_graph_create_filter allocOk filt name args st).1 = 0 ∧
     ∃ ctx, ctx.name = name ∧
       (avfilter_graph_create_filter allocOk filt name args st).2.2 =
         appendFilter st ctx) := by
  rcases hopen : avfilter_open filt name with ⟨ret, ctxO⟩
  rcases ctxO with _ | c
  · left
    have hneg := avfilter_open_none filt name ret hopen
    constructor
    · simp [avfilter_graph_create_filter, hopen]
      exact hneg
    · simp [avfilter_graph_create_filter, hopen]
  · have hopen0 := (avfilter_open_some filt name ret c hopen).1
    subst hopen0
    by_cases hinit : avfilter_init_filter c args < 0
    · left
      constructor
      · simp [avfilter_graph_create_filter, hopen, hinit]
      · simp [avfilter_graph_create_filter, hopen, hinit]
    · have hen : AVERROR ENOMEM < 0 := by decide
      rcases allocOk with _ | _
      · left
        constructor
        · simp [avfilter_graph_create_filter, hopen, hinit,
            avfilter_graph_add_filter, hen]
        · simp [avfilter_graph_create_filter, hopen, hinit,
            avfilter_graph_add_filter, hen]
      · right
        refine ⟨?_, c, (avfilter_open_some filt name 0 c hopen).2, ?_⟩
        · simp [avfilter_graph_create_filter, hopen, hinit,
            avfilter_graph_add_filter]
        · simp [avfilter_graph_create_filter, hopen, hinit,
            avfilter_graph_add_filter]

theorem mergeLoop_names (env : Env) :
    ∀ fuel st i j sc rc, ∃ rest,
      filterNames (mergeLoop env fuel st i j sc rc).2 =
        filterNames st ++ rest ∧ ConverterNames sc rc rest := by
  intro fuel
  induction fuel with
  | zero =>
    intro st i j sc rc
    exact ⟨[], by simp [mergeLoop], ConverterNames.nil _ _⟩
  | succ fuel ih =>
    intro st i j sc rc
    by_cases hi : i < st.graph.filters.length
    case neg => exact ⟨[], by simp [mergeLoop, hi], ConverterNames.nil _ _⟩
    by_cases hj : j < (filterAt st i).inputs.length
    case neg =>
      have h := ih st (i + 1) 0 sc rc
      simpa [mergeLoop, hi, hj] using h
    rcases hslot : (filterAt st i).inputs[j] with _ | lid
    · have h := ih st i (j + 1) sc rc
      simpa [mergeLoop, hi, hj, hslot] using h
    rcases hlink : linkAt st lid with _ | l
    · have h := ih st i (j + 1) sc rc
      simpa [mergeLoop, hi, hj, hslot, hlink] using h
    by_cases heq : l.in_formats = l.out_formats
    · have h := ih st i (j + 1) sc rc
      simpa [mergeLoop, hi, hj, hslot, hlink, heq] using h
    rcases hm : avfilter_merge_formats st l.in_formats l.out_formats with _ | stM
    · rcases hty : l.type with _ | _ | _
      · rcases hcr : avfilter_graph_create_filter env.allocOk (env.catalog "scale")
            ("auto-inserted scaler " ++ toString sc)
            ("0:0:" ++ st.graph.scale_sws_opts) st with ⟨ret, cO, st1⟩
        have hc := create_filter_names env.allocOk (env.catalog "scale")
          ("auto-inserted scaler " ++ toString sc)
          ("0:0:" ++ st.graph.scale_sws_opts) st
        rw [hcr] at hc
        dsimp only at hc
        by_cases hret : ret < 0
        · refine ⟨[], ?_, ConverterNames.nil _ _⟩
          simp [mergeLoop, hi, hj, hslot, hlink, heq, hm, hty, hcr, hret]
          rcases hc with ⟨_, h1⟩ | ⟨h0, _⟩
          · rw [h1]
          · exfalso; omega
        · rcases hc with ⟨h0, _⟩ | ⟨h0, ctx, hcn, happ⟩
          · exact absurd h0 hret
          · rcases hsp : spliceAndMerge st1 lid with ⟨e, stE⟩ | st2
            · refine ⟨[ctx.name], ?_, ?_⟩
              · simp [mergeLoop, hi, hj, hslot, hlink, heq, hm, hty, hcr, hret, hsp]
                have hE := (spliceAndMerge_names st1 lid).1 e stE hsp
                rw [hE, happ, filterNames_appendFilter]
              · rw [hcn]
                exact ConverterNames.scaler _ _ _ (ConverterNames.nil _ _)
            · obtain ⟨rest, hr, hcnr⟩ := ih st2 i (j + 1) (sc + 1) rc
              refine ⟨ctx.name :: rest, ?_, ?_⟩
              · simp [mergeLoop, hi, hj, hslot, hlink, heq, hm, hty, hcr, hret, hsp]
                rw [hr]
                have h2 := (spliceAndMerge_names st1 lid).2 st2 hsp
                rw [h2, happ, filterNames_appendFilter]
                simp
              · rw [hcn]
                exact ConverterNames.scaler _ _ _ hcnr
      · rcases hcat : env.catalog "resample" with _ | rflt
        · exact ⟨[], by simp [mergeLoop, hi, hj, hslot, hlink, heq, hm, hty, hcat],
            ConverterNames.nil _ _⟩
        · rcases hcr : avfilter_graph_create_filter env.allocOk (env.catalog "resample")
              ("auto-inserted resampler " ++ toString rc) "" st with ⟨ret, cO, st1⟩
          rw [hcat] at hcr
          have hc := create_filter_names env.allocOk (some rflt)
            ("auto-inserted resampler " ++ toString rc) "" st
          rw [hcr] at hc
          dsimp only at hc
          by_cases hret : ret < 0
          · refine ⟨[], ?_, ConverterNames.nil _ _⟩
            simp [mergeLoop, hi, hj, hslot, hlink, heq, hm, hty, hcat, hcr, hret]
            rcases hc with ⟨_, h1⟩ | ⟨h0, _⟩
            · rw [h1]
            · exfalso; omega
          · rcases hc with ⟨h0, _⟩ | ⟨h0, ctx, hcn, happ⟩
            · exact absurd h0 hret
            · rcases hsp : spliceAndMerge st1 lid with ⟨e, stE⟩ | st2
              · refine ⟨[ctx.name], ?_, ?_⟩
                · simp [mergeLoop, hi, hj, hslot, hlink, heq, hm, hty, hcat, hcr,
                    hret, hsp]
                  have hE := (spliceAndMerge_names st1 lid).1 e stE hsp
                  rw [hE, happ, filterNames_appendFilter]
                · rw [hcn]
                  exact ConverterNames.resampler _ _ _ (ConverterNames.nil _ _)
              · obtain ⟨rest, hr, hcnr⟩ := ih st2 i (j + 1) sc (rc + 1)
                refine ⟨ctx.name :: rest, ?_, ?_⟩
                · simp [mergeLoop, hi, hj, hslot, hlink, heq, hm, hty, hcat, hcr,
                    hret, hsp]
                  rw [hr]
                  have h2 := (spliceAndMerge_names st1 lid).2 st2 hsp
                  rw [h2, happ, filterNames_appendFilter]
                  simp
                · rw [hcn]
                  exact ConverterNames.resampler _ _ _ hcnr
      · exact ⟨[], by simp [mergeLoop, hi, hj, hslot, hlink, heq, hm, hty],
          ConverterNames.nil _ _⟩
    · obtain ⟨rest, hr, hcn⟩ := ih stM i (j + 1) sc rc
      have hnm : filterNames stM = filterNames st := by
        unfold filterNames
        rw [merge_graph _ _ _ _ hm]
      refine ⟨rest, ?_, hcn⟩
      simp [mergeLoop, hi, hj, hslot, hlink, heq, hm]
      rw [hr, hnm]

theorem queryPhase_loop_graph (env : Env) :
    ∀ (l : List Nat) (st : GState), (queryPhase_loop env st l).graph = st.graph := by
  intro l
  induction l with
  | nil => intro st; rfl
  | cons i rest ih =>
    intro st
    rw [queryPhase_loop, ih]
    unfold queryFilter
    rcases h : (filterAt st i).query_formats with _ | qf
    · simp [h, applyCommonFormats_graph]
    · simp [h, applyQFEffect_graph]

/-- C6: within one negotiation run the inserted converters are named by
two independent counters, both starting at 0 and scoped to that run: the
filters appended to the graph by query_formats carry names that follow
ConverterNames 0 0 — the k-th video converter of the run is named
"auto-inserted scaler k" and, independently, the k-th audio converter is
named "auto-inserted resampler k". -/
theorem query_formats_converter_names (env : Env) (st : GState) :
    ∃ rest,
      filterNames (query_formats env st).2 = filterNames st ++ rest ∧
      ConverterNames 0 0 rest := by
  unfold query_formats
  obtain ⟨rest, hr, hcn⟩ :=
    mergeLoop_names env (mergeFuel (queryPhase env st)) (queryPhase env st) 0 0 0 0
  refine ⟨rest, ?_, hcn⟩
  rw [hr]
  unfold filterNames queryPhase
  rw [queryPhase_loop_graph]

theorem setQfErr_links (st : GState) (i : Nat) (e : Int) :
    (setQfErr st i e).links = st.links := by
  unfold setQfErr
  rcases h : st.graph.filters.get? i with _ | c
  · rfl
  · rfl

theorem setQfErr_fmts (st : GState) (i : Nat) (e : Int) :
    (setQfErr st i e).fmts = st.fmts := by
  unfold setQfErr
  rcases h : st.graph.filters.get? i with _ | c
  · rfl
  · rfl

theorem linkAt_setQfErr (st : GState) (i : Nat) (e : Int) (lid : Nat) :
    linkAt (setQfErr st i e) lid = linkAt st lid := by
  unfold linkAt
  rw [setQfErr_links]

theorem setQfErr_filters_length (st : GState) (i : Nat) (e : Int) :
    (setQfErr st i e).graph.filters.length = st.graph.filters.length := by
  unfold setQfErr
  rcases h : st.graph.filters.get? i with _ | c
  · rfl
  · simp [updFilter]

theorem filterAt_setQfErr (st : GState) (i : Nat) (e : Int) (k : Nat) :
    filterAt (setQfErr st i e) k =
      if k = i then setCtxQfErr (filterAt st k) e else filterAt st k := by
  rcases h : st.graph.filters.get? i with _ | c
  · have hs : setQfErr st i e = st := by
      unfold setQfErr
      rw [h]
    rw [hs]
    rw [List.get?_eq_none] at h
    by_cases hk : k = i
    · subst hk
      rw [if_pos rfl]
      unfold filterAt
      rw [List.getD_eq_getElem?_getD, List.getElem?_eq_none h]
      rfl
    · rw [if_neg hk]
  · have hs : setQfErr st i e = updFilter st i (setCtxQfErr c e) := by
      unfold setQfErr
      rw [h]
    rw [hs]
    rw [List.get?_eq_getElem?] at h
    obtain ⟨hlt, hget⟩ := List.getElem?_eq_some.mp h
    unfold updFilter filterAt
    by_cases hk : k = i
    · subst hk
      rw [if_pos rfl]
      rw [List.getD_eq_getElem?_getD, List.getD_eq_getElem?_getD,
        List.getElem?_set]
      rw [if_pos rfl, if_pos hlt, List.getElem?_eq_getElem hlt, hget]
      rfl
    · rw [if_neg hk]
      rw [List.getD_eq_getElem?_getD, List.getD_eq_getElem?_getD,
        List.getElem?_set]
      rw [if_neg (fun hh => hk hh.symm)]

theorem setCtxQfErr_inputs (c : AVFilterContext) (e : Int) :
    (setCtxQfErr c e).inputs = c.inputs := rfl

theorem setCtxQfErr_outputs (c : AVFilterContext) (e : Int) :
    (setCtxQfErr c e).outputs = c.outputs := rfl

theorem filterAt_setQfErr_inputs (st : GState) (i : Nat) (e : Int) (k : Nat) :
    (filterAt (setQfErr st i e) k).inputs = (filterAt st k).inputs := by
  rw [filterAt_setQfErr]
  by_cases hk : k = i <;> simp [hk, setCtxQfErr]

theorem filterAt_setQfErr_outputs (st : GState) (i : Nat) (e : Int) (k : Nat) :
    (filterAt (setQfErr st i e) k).outputs = (filterAt st k).outputs := by
  rw [filterAt_setQfErr]
  by_cases hk : k = i <;> simp [hk, setCtxQfErr]

theorem updLink_setQfErr (s : GState) (i : Nat) (e : Int) (lid : Nat)
    (l : AVFilterLink) :
    updLink (setQfErr s i e) lid l = setQfErr (updLink s lid l) i e := by
  unfold setQfErr updLink updFilter
  rcases h : s.graph.filters.get? i with _ | c <;> simp [h]

theorem setQfErr_with_fmts (st : GState) (i : Nat) (e : Int)
    (F : List AVFilterFormats) :
    { setQfErr st i e with fmts := F } = setQfErr { st with fmts := F } i e := by
  unfold setQfErr updFilter
  rcases h : st.graph.filters.get? i with _ | c <;> simp [h]

theorem refInputPad_setQfErr (s : GState) (ol : Option Nat) (c : Nat)
    (i : Nat) (e : Int) :
    refInputPad (setQfErr s i e) ol c = setQfErr (refInputPad s ol c) i e := by
  unfold refInputPad
  rcases ol with _ | lid
  · rfl
  · simp only [linkAt_setQfErr]
    rcases h : linkAt s lid with _ | l
    · simp [h]
    · simp [h, updLink_setQfErr]

theorem refOutputPad_setQfErr (s : GState) (ol : Option Nat) (c : Nat)
    (i : Nat) (e : Int) :
    refOutputPad (setQfErr s i e) ol c = setQfErr (refOutputPad s ol c) i e := by
  unfold refOutputPad
  rcases ol with _ | lid
  · rfl
  · simp only [linkAt_setQfErr]
    rcases h : linkAt s lid with _ | l
    · simp [h]
    · simp [h, updLink_setQfErr]

theorem foldl_refInputPad_setQfErr (c : Nat) (i : Nat) (e : Int) :
    ∀ (l : List (Option Nat)) (s : GState),
      l.foldl (fun s ol => refInputPad s ol c) (setQfErr s i e) =
        setQfErr (l.foldl (fun s ol => refInputPad s ol c) s) i e := by
  intro l
  induction l with
  | nil => intro s; rfl
  | cons ol rest ih =>
    intro s
    rw [List.foldl_cons, List.foldl_cons, refInputPad_setQfErr, ih]

theorem foldl_refOutputPad_setQfErr (c : Nat) (i : Nat) (e : Int) :
    ∀ (l : List (Option Nat)) (s : GState),
      l.foldl (fun s ol => refOutputPad s ol c) (setQfErr s i e) =
        setQfErr (l.foldl (fun s ol => refOutputPad s ol c) s) i e := by
  intro l
  induction l with
  | nil => intro s; rfl
  | cons ol rest ih =>
    intro s
    rw [List.foldl_cons, List.foldl_cons, refOutputPad_setQfErr, ih]

theorem applyCommonFormats_setQfErr (st : GState) (i : Nat) (e : Int)
    (k : Nat) (fl : List Int) :
    applyCommonFormats (setQfErr st i e) k fl =
      setQfErr (applyCommonFormats st k fl) i e := by
  unfold applyCommonFormats
  rw [setQfErr_fmts, setQfErr_with_fmts]
  dsimp only
  rw [filterAt_setQfErr_inputs, filterAt_setQfErr_outputs,
    foldl_refInputPad_setQfErr, foldl_refOutputPad_setQfErr]

theorem refInputsPerPad_setQfErr (i : Nat) (e : Int) :
    ∀ (ols : List (Option Nat)) (st : GState) (fls : List (List Int)),
      refInputsPerPad (setQfErr st i e) ols fls =
        setQfErr (refInputsPerPad st ols fls) i e := by
  intro ols
  induction ols with
  | nil => intro st fls; rfl
  | cons ol rest ih =>
    intro st fls
    rw [refInputsPerPad, refInputsPerPad, setQfErr_fmts, setQfErr_with_fmts,
      refInputPad_setQfErr, ih]

theorem refOutputsPerPad_setQfErr (i : Nat) (e : Int) :
    ∀ (ols : List (Option Nat)) (st : GState) (fls : List (List Int)),
      refOutputsPerPad (setQfErr st i e) ols fls =
        setQfErr (refOutputsPerPad st ols fls) i e := by
  intro ols
  induction ols with
  | nil => intro st fls; rfl
  | cons ol rest ih =>
    intro st fls
    rw [refOutputsPerPad, refOutputsPerPad, setQfErr_fmts, setQfErr_with_fmts,
      refOutputPad_setQfErr, ih]

theorem applyQFEffect_setQfErr (st : GState) (i : Nat) (e : Int) (k : Nat)
    (eff : QFEffect) :
    applyQFEffect (setQfErr st i e) k eff =
      setQfErr (applyQFEffect st k eff) i e := by
  cases eff with
  | common fl => exact applyCommonFormats_setQfErr st i e k fl
  | perPad ins outs =>
    unfold applyQFEffect
    dsimp only
    rw [filterAt_setQfErr_inputs, filterAt_setQfErr_outputs,
      refInputsPerPad_setQfErr, refOutputsPerPad_setQfErr]

theorem queryFilter_setQfErr (env : Env) (st : GState) (i : Nat) (e : Int)
    (k : Nat) :
    queryFilter env (setQfErr st i e) k = setQfErr (queryFilter env st k) i e := by
  unfold queryFilter
  rw [filterAt_setQfErr]
  by_cases hk : k = i
  · rw [if_pos hk]
    rcases h : (filterAt st k).query_formats with _ | qf
    · simp only [setCtxQfErr, h]
      exact applyCommonFormats_setQfErr st i e k env.all_formats
    · simp only [setCtxQfErr, h]
      exact applyQFEffect_setQfErr st i e k qf.2
  · rw [if_neg hk]
    rcases h : (filterAt st k).query_formats with _ | qf
    · exact applyCommonFormats_setQfErr st i e k env.all_formats
    · exact applyQFEffect_setQfErr st i e k qf.2

theorem queryPhase_loop_setQfErr (env : Env) (i : Nat) (e : Int) :
    ∀ (l : List Nat) (st : GState),
      queryPhase_loop env (setQfErr st i e) l =
        setQfErr (queryPhase_loop env st l) i e := by
  intro l
  induction l with
  | nil => intro st; rfl
  | cons k rest ih =>
    intro st
    rw [queryPhase_loop, queryPhase_loop, queryFilter_setQfErr, ih]

/-- C2 (amended): an error code returned by a node's queryFormats callback
during the Query phase is discarded, not surfaced: changing the code a
callback returns changes nothing about the Query phase's outcome beyond
the stored code itself (the phase commutes with replacing the code), and
in particular the phase never aborts. -/
theorem queryPhase_discards_callback_errors (env : Env) (st : GState)
    (i : Nat) (e : Int) :
    queryPhase env (setQfErr st i e) = setQfErr (queryPhase env st) i e := by
  unfold queryPhase
  rw [setQfErr_filters_length, queryPhase_loop_setQfErr]

/-- Counterexample to C2 as stated: the only filter's queryFormats
callback returns error -5, yet avfilter_graph_config returns 0 — the
error is silently discarded rather than surfaced to the caller. -/
theorem queryFormats_error_discarded_counterexample :
    (filterAt wStErr 0).query_formats = some (-5, QFEffect.common [7]) ∧
    (avfilter_graph_config wEnv (fun _ => 0) wStErr).1 = 0 := by
  constructor
  · rfl
  · decide

theorem countP_le_of {α : Type} (P Q : α → Bool) :
    ∀ l : List α, (∀ x ∈ l, Q x = true → P x = true) →
      l.countP Q ≤ l.countP P := by
  intro l
  induction l with
  | nil => intro h; simp
  | cons x xs ih =>
    intro h
    have ht := ih (fun y hy => h y (List.mem_cons_of_mem x hy))
    have hx := h x (List.mem_cons_self x xs)
    cases hq : Q x with
    | false =>
      cases hP : P x with
      | false => simp [List.countP_cons, hq, hP]; omega
      | true => simp [List.countP_cons, hq, hP]; omega
    | true =>
      have hPx := hx hq
      simp [List.countP_cons, hq, hPx]
      omega

theorem countP_lt_of {α : Type} (P Q : α → Bool) :
    ∀ l : List α, (∀ x ∈ l, Q x = true → P x = true) →
      (∃ x ∈ l, P x = true ∧ Q x = false) →
      l.countP Q < l.countP P := by
  intro l
  induction l with
  | nil => intro _ h; simp at h
  | cons x xs ih =>
    intro h hw
    obtain ⟨y, hy, hPy, hQy⟩ := hw
    rcases List.mem_cons.mp hy with hyx | hyxs
    · subst hyx
      have ht := countP_le_of P Q xs (fun z hz => h z (List.mem_cons_of_mem y hz))
      simp [List.countP_cons, hQy, hPy]
      omega
    · have ht := ih (fun z hz => h z (List.mem_cons_of_mem x hz)) ⟨y, hyxs, hPy, hQy⟩
      have hx := h x (List.mem_cons_self x xs)
      cases hq : Q x with
      | false =>
        cases hP : P x with
        | false => simp [List.countP_cons, hq, hP]; omega
        | true => simp [List.countP_cons, hq, hP]; omega
      | true =>
        have hPx := hx hq
        simp [List.countP_cons, hq, hPx]
        omega

theorem countP_lt_length_of {α : Type} (P : α → Bool) :
    ∀ l : List α, (∃ x ∈ l, P x = false) → l.countP P < l.length := by
  intro l
  induction l with
  | nil => intro h; simp at h
  | cons x xs ih =>
    intro hw
    obtain ⟨y, hy, hPy⟩ := hw
    rcases List.mem_cons.mp hy with hyx | hyxs
    · subst hyx
      have : xs.countP P ≤ xs.length := List.countP_le_length P
      simp [List.countP_cons, hPy]
      omega
    · have ht := ih ⟨y, hyxs, hPy⟩
      cases hq : P x with
      | false => simp [List.countP_cons, hq]; omega
      | true => simp [List.countP_cons, hq]; omega

theorem sum_le_of_pointwise :
    ∀ (A B : List Nat), B.length = A.length →
      (∀ k, B.getD k 0 ≤ A.getD k 0) → B.sum ≤ A.sum := by
  intro A
  induction A with
  | nil =>
    intro B hlen _
    have : B = [] := List.eq_nil_of_length_eq_zero hlen
    subst this
    simp
  | cons a As ih =>
    intro B hlen hpt
    match B with
    | [] => simp
    | b :: Bs =>
      simp only [List.sum_cons]
      have h0 := hpt 0
      have ht := ih Bs (by simpa using hlen) (fun k => hpt (k + 1))
      simp only [List.getD] at h0
      simp at h0
      omega

theorem sum_lt_of_pointwise :
    ∀ (A B : List Nat), B.length = A.length →
      (∀ k, B.getD k 0 ≤ A.getD k 0) →
      (∃ k, k < A.length ∧ B.getD k 0 < A.getD k 0) →
      B.sum < A.sum := by
  intro A
  induction A with
  | nil =>
    intro B hlen _ hw
    obtain ⟨k, hk, _⟩ := hw
    simp at hk
  | cons a As ih =>
    intro B hlen hpt hw
    match B with
    | [] => simp at hlen
    | b :: Bs =>
      simp only [List.sum_cons]
      obtain ⟨k, hk, hlt⟩ := hw
      match k with
      | 0 =>
        have ht := sum_le_of_pointwise As Bs (by simpa using hlen)
          (fun k => hpt (k + 1))
        simp only [List.getD] at hlt
        simp at hlt
        omega
      | k + 1 =>
        have h0 := hpt 0
        simp only [List.getD] at h0
        simp at h0
        have ht := ih Bs (by simpa using hlen) (fun k => hpt (k + 1))
          ⟨k, by simpa using hk, hlt⟩
        omega

theorem fmtsIdx_ge (st : GState) (k : Nat) (h : st.fmts.length ≤ k) :
    fmtsIdx st k = [] := by
  unfold fmtsIdx
  rw [List.getD_eq_getElem?_getD, List.getElem?_eq_none h]
  rfl

theorem fmtsIdx_updFmts (st : GState) (k : Nat) (fl : List Int) (kk : Nat) :
    fmtsIdx (updFmts st k fl) kk =
      if kk = k ∧ k < st.fmts.length then fl else fmtsIdx st kk := by
  unfold fmtsIdx updFmts
  simp only [List.getD_eq_getElem?_getD]
  rw [List.getElem?_set]
  by_cases hkk : k = kk
  · rw [if_pos hkk]
    by_cases hlt : k < st.fmts.length
    · rw [if_pos hlt, if_pos ⟨hkk.symm, hlt⟩]
      rfl
    · rw [if_neg hlt, if_neg (fun hcon => hlt hcon.2)]
      have hge : st.fmts.length ≤ kk := by omega
      rw [List.getElem?_eq_none hge]
  · rw [if_neg hkk, if_neg (fun hcon => hkk hcon.1.symm)]

theorem linkAt_eq_of_links_eq (st st' : GState) (h : st'.links = st.links)
    (lid : Nat) : linkAt st' lid = linkAt st lid := by
  unfold linkAt
  rw [h]

theorem RfRel_refl (st : GState) : RfRel st st :=
  ⟨rfl, rfl, rfl, fun _ => Or.inl rfl⟩

theorem RfRel_trans (st st1 st2 : GState) (h1 : RfRel st st1)
    (h2 : RfRel st1 st2) : RfRel st st2 := by
  obtain ⟨hl1, hg1, hf1, hp1⟩ := h1
  obtain ⟨hl2, hg2, hf2, hp2⟩ := h2
  refine ⟨by rw [hl2, hl1], by rw [hg2, hg1], by rw [hf2, hf1], fun kk => ?_⟩
  rcases hp2 kk with he | ⟨hone, hgt, hsub, olid, ol, hol, hin⟩
  · rw [he]
    exact hp1 kk
  · rcases hp1 kk with he1 | ⟨hone1, hgt1, _⟩
    · right
      rw [he1] at hgt hsub
      exact ⟨hone, hgt, hsub, olid, ol,
        by rw [← linkAt_eq_of_links_eq st st1 hl1]; exact hol, hin⟩
    · right
      rw [hone1] at hgt
      omega

theorem PinWitness_post (st st1 st2 : GState) (hp : PinWitness st st1)
    (hr : RfRel st1 st2) : PinWitness st st2 := by
  obtain ⟨kk, hgt, hone, olid, ol, hol, hin⟩ := hp
  obtain ⟨_, _, _, hp2⟩ := hr
  refine ⟨kk, hgt, ?_, olid, ol, hol, hin⟩
  rcases hp2 kk with he | ⟨hone2, _, _, _⟩
  · rw [he]
    exact hone
  · exact hone2

theorem PinWitness_pre (st st1 st2 : GState) (hr : RfRel st st1)
    (hp : PinWitness st1 st2) : PinWitness st st2 := by
  obtain ⟨kk, hgt, hone, olid, ol, hol, hin⟩ := hp
  obtain ⟨hl1, _, _, hp1⟩ := hr
  rcases hp1 kk with he | ⟨hone1, _, _, _⟩
  · rw [he] at hgt
    exact ⟨kk, hgt, hone, olid, ol,
      by rw [← linkAt_eq_of_links_eq st st1 hl1]; exact hol, hin⟩
  · rw [hone1] at hgt
    omega

theorem rf_inner_spec (fidx : Nat) (ty : AVMediaType) (format : Int) :
    ∀ (js : List Nat) (st : GState) (acc : Bool),
      RfRel st (rf_inner fidx ty format st acc js).1 ∧
      ((rf_inner fidx ty format st acc js).2 = false →
        (rf_inner fidx ty format st acc js).1 = st ∧ acc = false) ∧
      (acc = true → (rf_inner fidx ty format st acc js).2 = true) ∧
      ((rf_inner fidx ty format st acc js).2 = true →
        acc = true ∨ PinWitness st (rf_inner fidx ty format st acc js).1) := by
  intro js
  induction js with
  | nil =>
    intro st acc
    exact ⟨RfRel_refl st, fun h => ⟨rfl, h⟩, fun h => h, fun h => Or.inl h⟩
  | cons j rest ih =>
    intro st acc
    rcases hslot : (filterAt st fidx).outputs.getD j none with _ | olid
    · simp only [rf_inner, hslot]
      exact ih st acc
    · rcases hl : linkAt st olid with _ | ol
      · simp only [rf_inner, hslot, hl]
        exact ih st acc
      · by_cases hty : ty ≠ ol.type
        · simp only [rf_inner, hslot, hl, if_pos hty]
          exact ih st acc
        · rcases hin : ol.in_formats with _ | fref
          · simp only [rf_inner, hslot, hl, if_neg hty, hin]
            exact ih st acc
          · by_cases h1 : (fmtsIdx st fref).length = 1
            · simp only [rf_inner, hslot, hl, if_neg hty, hin, if_pos h1]
              exact ih st acc
            · by_cases hc : (fmtsIdx st fref).contains format = true
              · simp only [rf_inner, hslot, hl, if_neg hty, hin, if_neg h1,
                  hc, if_pos]
                have hfr : fref < st.fmts.length := by
                  by_contra hge
                  push_neg at hge
                  rw [fmtsIdx_ge st fref hge] at hc
                  simp at hc
                have hmem : format ∈ fmtsIdx st fref :=
                  List.mem_of_elem_eq_true hc
                have hlen2 : 1 < (fmtsIdx st fref).length := by
                  have h0 : 0 < (fmtsIdx st fref).length :=
                    List.length_pos.mpr (List.ne_nil_of_mem hmem)
                  omega
                have hP : fmtsIdx (updFmts st fref [format]) fref = [format] := by
                  rw [fmtsIdx_updFmts]
                  simp [hfr]
                have hrel1 : RfRel st (updFmts st fref [format]) := by
                  refine ⟨rfl, rfl, by simp [updFmts], fun kk => ?_⟩
                  by_cases hkk : kk = fref
                  · subst hkk
                    right
                    refine ⟨by rw [hP]; rfl, hlen2, ?_, olid, ol, hl, hin⟩
                    rw [hP]
                    intro x hx
                    rw [List.mem_singleton] at hx
                    subst hx
                    exact hmem
                  · left
                    rw [fmtsIdx_updFmts]
                    rw [if_neg (by intro hcon; exact hkk hcon.1)]
                have hpin : PinWitness st (updFmts st fref [format]) :=
                  ⟨fref, hlen2, by rw [hP]; rfl, olid, ol, hl, hin⟩
                obtain ⟨ih1, ih2, ih3, ih4⟩ := ih (updFmts st fref [format]) true
                refine ⟨RfRel_trans _ _ _ hrel1 ih1, ?_, ?_, ?_⟩
                · intro hf
                  rw [ih3 rfl] at hf
                  simp at hf
                · intro _
                  exact ih3 rfl
                · intro _
                  right
                  exact PinWitness_post _ _ _ hpin ih1
              · simp only [rf_inner, hslot, hl, if_neg hty, hin, if_neg h1]
                rw [if_neg (by simpa using hc)]
                exact ih st acc

theorem rf_outer_spec (fidx : Nat) :
    ∀ (is : List Nat) (st : GState) (acc : Bool),
      RfRel st (rf_outer fidx st acc is).1 ∧
      ((rf_outer fidx st acc is).2 = false →
        (rf_outer fidx st acc is).1 = st ∧ acc = false) ∧
      (acc = true → (rf_outer fidx st acc is).2 = true) ∧
      ((rf_outer fidx st acc is).2 = true →
        acc = true ∨ PinWitness st (rf_outer fidx st acc is).1) ∧
      ((rf_outer fidx st acc is).2 = true →
        acc = true ∨ ∃ tlid t, linkAt st tlid = some t ∧
          (fmtsOf st t.out_formats).length = 1) := by
  intro is
  induction is with
  | nil =>
    intro st acc
    exact ⟨RfRel_refl st, fun h => ⟨rfl, h⟩, fun h => h, fun h => Or.inl h,
      fun h => Or.inl h⟩
  | cons i rest ih =>
    intro st acc
    rcases hslot : (filterAt st fidx).inputs.getD i none with _ | lid
    · simp only [rf_outer, hslot]
      exact ih st acc
    · rcases hl : linkAt st lid with _ | l
      · simp only [rf_outer, hslot, hl]
        exact ih st acc
      · by_cases hlen1 : (fmtsOf st l.out_formats).length ≠ 1
        · simp only [rf_outer, hslot, hl, if_pos hlen1]
          exact ih st acc
        · push_neg at hlen1
          rcases hrfi : rf_inner fidx l.type ((fmtsOf st l.out_formats).headI)
              st acc (List.range (filterAt st fidx).outputs.length)
            with ⟨st1, acc1⟩
          have hinner := rf_inner_spec fidx l.type
            ((fmtsOf st l.out_formats).headI)
            (List.range (filterAt st fidx).outputs.length) st acc
          rw [hrfi] at hinner
          dsimp only at hinner
          obtain ⟨rel_in, in2, in3, in4⟩ := hinner
          obtain ⟨rel_out, out2, out3, out4, out5⟩ := ih st1 acc1
          simp only [rf_outer, hslot, hl, if_neg (by omega : ¬ (fmtsOf st l.out_formats).length ≠ 1), hrfi]
          refine ⟨RfRel_trans _ _ _ rel_in rel_out, ?_, ?_, ?_, ?_⟩
          · intro hf
            obtain ⟨hF, hacc1⟩ := out2 hf
            obtain ⟨hst1, hacc⟩ := in2 hacc1
            exact ⟨by rw [hF, hst1], hacc⟩
          · intro ha
            exact out3 (in3 ha)
          · intro hr
            rcases out4 hr with hacc1 | hpin
            · rcases in4 hacc1 with ha | hpin1
              · exact Or.inl ha
              · exact Or.inr (PinWitness_post _ _ _ hpin1 rel_out)
            · exact Or.inr (PinWitness_pre _ _ _ rel_in hpin)
          · intro _
            exact Or.inr ⟨lid, l, hl, hlen1⟩

theorem reduce_formats_on_filter_spec (st : GState) (fidx : Nat) :
    RfRel st (reduce_formats_on_filter st fidx).1 ∧
    ((reduce_formats_on_filter st fidx).2 = false →
      (reduce_formats_on_filter st fidx).1 = st) ∧
    ((reduce_formats_on_filter st fidx).2 = true →
      PinWitness st (reduce_formats_on_filter st fidx).1 ∧
      ∃ tlid t, linkAt st tlid = some t ∧
        (fmtsOf st t.out_formats).length = 1) := by
  obtain ⟨h1, h2, _, h4, h5⟩ := rf_outer_spec fidx
    (List.range (filterAt st fidx).inputs.length) st false
  refine ⟨h1, fun hf => (h2 hf).1, fun ht => ⟨?_, ?_⟩⟩
  · rcases h4 ht with hacc | hpin
    · simp at hacc
    · exact hpin
  · rcases h5 ht with hacc | htrig
    · simp at hacc
    · exact htrig

theorem reduce_pass_loop_spec :
    ∀ (ilist : List Nat) (st : GState) (acc : Bool),
      RfRel st (reduce_pass_loop st acc ilist).1 ∧
      ((reduce_pass_loop st acc ilist).2 = false →
        (reduce_pass_loop st acc ilist).1 = st ∧ acc = false) ∧
      (acc = true → (reduce_pass_loop st acc ilist).2 = true) ∧
      ((reduce_pass_loop st acc ilist).2 = true →
        acc = true ∨ PinWitness st (reduce_pass_loop st acc ilist).1) ∧
      ((reduce_pass_loop st acc ilist).2 = true →
        acc = true ∨ ∃ tlid t, linkAt st tlid = some t ∧
          (fmtsOf st t.out_formats).length = 1) := by
  intro ilist
  induction ilist with
  | nil =>
    intro st acc
    exact ⟨RfRel_refl st, fun h => ⟨rfl, h⟩, fun h => h, fun h => Or.inl h,
      fun h => Or.inl h⟩
  | cons i rest ih =>
    intro st acc
    rcases hrf : reduce_formats_on_filter st i with ⟨st1, r1⟩
    obtain ⟨rel1, hunch, hpin1⟩ := reduce_formats_on_filter_spec st i
    rw [hrf] at rel1 hunch hpin1
    dsimp only at rel1 hunch hpin1
    obtain ⟨rel_out, out2, out3, out4, out5⟩ := ih st1 (acc || r1)
    simp only [reduce_pass_loop, hrf]
    refine ⟨RfRel_trans _ _ _ rel1 rel_out, ?_, ?_, ?_, ?_⟩
    · intro hf
      obtain ⟨hF, hor⟩ := out2 hf
      simp at hor
      rw [hF, hunch hor.2]
      exact ⟨rfl, hor.1⟩
    · intro ha
      exact out3 (by simp [ha])
    · intro hr
      rcases out4 hr with hor | hpin
      · simp at hor
        rcases hor with ha | hr1
        · exact Or.inl ha
        · exact Or.inr (PinWitness_post _ _ _ (hpin1 hr1).1 rel_out)
      · exact Or.inr (PinWitness_pre _ _ _ rel1 hpin)
    · intro hr
      rcases out5 hr with hor | htrig
      · simp at hor
        rcases hor with ha | hr1
        · exact Or.inl ha
        · exact Or.inr (hpin1 hr1).2
      · rcases hr1 : r1 with _ | _
        · rw [hunch hr1] at htrig
          exact Or.inr htrig
        · exact Or.inr (hpin1 hr1).2

theorem reduce_pass_spec (st : GState) :
    RfRel st (reduce_pass st).1 ∧
    ((reduce_pass st).2 = false → (reduce_pass st).1 = st) ∧
    ((reduce_pass st).2 = true →
      PinWitness st (reduce_pass st).1 ∧
      ∃ tlid t, linkAt st tlid = some t ∧
        (fmtsOf st t.out_formats).length = 1) := by
  obtain ⟨h1, h2, _, h4, h5⟩ :=
    reduce_pass_loop_spec (List.range st.graph.filters.length) st false
  refine ⟨h1, fun hf => (h2 hf).1, fun ht => ⟨?_, ?_⟩⟩
  · rcases h4 ht with hacc | hpin
    · simp at hacc
    · exact hpin
  · rcases h5 ht with hacc | htrig
    · simp at hacc
    · exact htrig

theorem fmts_map_len_getD (L : List AVFilterFormats) (k : Nat) :
    (L.map (fun f => f.formats.length)).getD k 0 =
      (L.getD k ⟨[]⟩).formats.length :=
  map_getD _ L ⟨[]⟩ k

theorem totalFormatCount_lt (st st1 : GState) (hrel : RfRel st st1)
    (hpin : PinWitness st st1) :
    totalFormatCount st1 < totalFormatCount st := by
  obtain ⟨_, _, hflen, hpt⟩ := hrel
  obtain ⟨kk, hgt, hone, _⟩ := hpin
  unfold totalFormatCount
  apply sum_lt_of_pointwise
  · simp [hflen]
  · intro k
    rw [fmts_map_len_getD, fmts_map_len_getD]
    change (fmtsIdx st1 k).length ≤ (fmtsIdx st k).length
    rcases hpt k with he | ⟨h1, h2, _, _⟩
    · rw [he]
    · omega
  · refine ⟨kk, ?_, ?_⟩
    · have hklt : kk < st.fmts.length := by
        by_contra hge
        push_neg at hge
        rw [fmtsIdx_ge st kk hge] at hgt
        simp at hgt
      simpa using hklt
    · rw [fmts_map_len_getD, fmts_map_len_getD]
      change (fmtsIdx st1 kk).length < (fmtsIdx st kk).length
      omega

theorem multiLinkCount_lt (st st1 : GState) (hrel : RfRel st st1)
    (hpin : PinWitness st st1) :
    multiLinkCount st1 < multiLinkCount st := by
  obtain ⟨hlinks, _, _, hpt⟩ := hrel
  obtain ⟨kk, hgt, hone, olid, ol, hol, hin⟩ := hpin
  unfold multiLinkCount
  rw [hlinks]
  apply countP_lt_of
  · intro l _ hq
    simp only [decide_eq_true_eq] at hq ⊢
    rcases hil : l.in_formats with _ | k
    · rw [hil] at hq
      simp [fmtsOf] at hq
    · rw [hil] at hq
      simp only [fmtsOf] at hq ⊢
      rcases hpt k with he | ⟨h1, h2, _, _⟩
      · rw [he] at hq
        exact hq
      · rw [h1] at hq
        omega
  · refine ⟨ol, List.get?_mem hol, ?_, ?_⟩
    · simp only [hin, fmtsOf, decide_eq_true_eq]
      exact hgt
    · simp only [hin, fmtsOf]
      rw [hone]
      rfl

theorem reduce_loop_iters_le :
    ∀ (fuel : Nat) (st : GState),
      (reduce_loop st fuel).2 ≤ multiLinkCount st + 1 := by
  intro fuel
  induction fuel with
  | zero => intro st; simp [reduce_loop]
  | succ fuel ih =>
    intro st
    rcases hp : reduce_pass st with ⟨st1, r⟩
    obtain ⟨hrel, hunch, hpin⟩ := reduce_pass_spec st
    rw [hp] at hrel hunch hpin
    dsimp only at hrel hunch hpin
    rcases hr : r with _ | _
    · simp [reduce_loop, hp, hr]
    · subst hr
      have hM := multiLinkCount_lt st st1 hrel (hpin rfl).1
      have := ih st1
      simp only [reduce_loop, hp]
      rcases hloop : reduce_loop st1 fuel with ⟨st2, n⟩
      rw [hloop] at this
      dsimp only at this ⊢
      omega

theorem reduce_loop_fixpoint :
    ∀ (fuel : Nat) (st : GState), totalFormatCount st < fuel →
      reduce_pass (reduce_loop st fuel).1 = ((reduce_loop st fuel).1, false) := by
  intro fuel
  induction fuel with
  | zero => intro st h; omega
  | succ fuel ih =>
    intro st h
    rcases hp : reduce_pass st with ⟨st1, r⟩
    obtain ⟨hrel, hunch, hpin⟩ := reduce_pass_spec st
    rw [hp] at hrel hunch hpin
    dsimp only at hrel hunch hpin
    rcases hr : r with _ | _
    · subst hr
      simp only [reduce_loop, hp]
      rw [hunch rfl] at hp ⊢
      exact hp
    · subst hr
      have hT := totalFormatCount_lt st st1 hrel (hpin rfl).1
      have := ih st1 (by omega)
      simp only [reduce_loop, hp]
      rcases hloop : reduce_loop st1 fuel with ⟨st2, n⟩
      rw [hloop] at this
      dsimp only at this ⊢
      exact this

/-- C5 (amended): the Reduce fixpoint terminates.
reduce_formats_on_filter reports 1 only when it pinned some
multi-candidate set (referenced by a link) to a singleton; a full pass
either strictly shrinks the total candidate count over all format sets or
changes nothing; the state reduce_formats returns is a true fixpoint (one
more pass changes nothing); and on post-merge states (each link's two
references merged into one shared set) the do-while performs at most
max(1, number of links) passes — a link-free graph still executes its one
no-change pass, which is the single correction to the claimed
(number of links) bound. -/
theorem reduce_formats_termination_bound :
    (∀ st fidx st1, reduce_formats_on_filter st fidx = (st1, true) →
      PinWitness st st1) ∧
    (∀ st st1, reduce_pass st = (st1, false) → st1 = st) ∧
    (∀ st st1, reduce_pass st = (st1, true) →
      totalFormatCount st1 < totalFormatCount st ∧ PinWitness st st1) ∧
    (∀ st, reduce_pass (reduce_formats st) = (reduce_formats st, false)) ∧
    (∀ st, MergedRefs st → reduce_iters st ≤ max 1 (numLinks st)) := by
  refine ⟨?_, ?_, ?_, ?_, ?_⟩
  · intro st fidx st1 h
    obtain ⟨_, _, hpin⟩ := reduce_formats_on_filter_spec st fidx
    rw [h] at hpin
    exact (hpin rfl).1
  · intro st st1 h
    obtain ⟨_, hunch, _⟩ := reduce_pass_spec st
    rw [h] at hunch
    exact hunch rfl
  · intro st st1 h
    obtain ⟨hrel, _, hpin⟩ := reduce_pass_spec st
    rw [h] at hrel hpin
    dsimp only at hrel hpin
    obtain ⟨hp, _⟩ := hpin rfl
    exact ⟨totalFormatCount_lt st st1 hrel hp, hp⟩
  · intro st
    unfold reduce_formats
    exact reduce_loop_fixpoint (reduceFuel st) st (by unfold reduceFuel; omega)
  · intro st hmr
    unfold reduce_iters
    rcases hp : reduce_pass st with ⟨st1, r⟩
    rcases hr : r with _ | _
    · subst hr
      have h1 : (reduce_loop st (reduceFuel st)).2 = 1 := by
        unfold reduceFuel
        simp [reduce_loop, hp]
      rw [h1]
      omega
    · subst hr
      obtain ⟨_, _, hpin⟩ := reduce_pass_spec st
      rw [hp] at hpin
      dsimp only at hpin
      obtain ⟨_, tlid, t, htl, hlen⟩ := hpin rfl
      have htin : (fmtsOf st t.in_formats).length = 1 := by
        rw [hmr tlid t htl]
        exact hlen
      have hMle : multiLinkCount st < numLinks st := by
        unfold multiLinkCount numLinks
        apply countP_lt_length_of
        refine ⟨t, List.get?_mem htl, ?_⟩
        rw [htin]
        rfl
      have hiter := reduce_loop_iters_le (reduceFuel st) st
      omega

/-- Witness for the reduce bound: a merged one-link state performs at most
max(1, 1) passes. -/
theorem reduce_formats_termination_bound_witness :
    reduce_iters wStRed ≤ max 1 (numLinks wStRed) := by
  apply reduce_formats_termination_bound.2.2.2.2 wStRed
  intro lid l h
  rcases lid with _ | n
  · have hl : l = { wLink with in_formats := some 0, out_formats := some 0 } := by
      simp [linkAt, wStRed] at h
      exact h.symm
    rw [hl]
  · simp [linkAt, wStRed] at h

/-- Counterexample to C5 as stated: on a link-free graph the do-while of
reduce_formats still executes one pass, exceeding the claimed bound of
(number of links) = 0 iterations. -/
theorem reduce_iters_links_bound_counterexample :
    numLinks wStZ = 0 ∧ reduce_iters wStZ = 1 ∧
    ¬ reduce_iters wStZ ≤ numLinks wStZ := by
  refine ⟨rfl, ?_, ?_⟩
  · decide
  · decide

theorem linkAt_updLink (st : GState) (lid : Nat) (l : AVFilterLink) (k : Nat) :
    linkAt (updLink st lid l) k =
      if k = lid ∧ lid < st.links.length then some l else linkAt st k := by
  unfold linkAt updLink
  rw [List.get?_eq_getElem?, List.get?_eq_getElem?, List.getElem?_set]
  by_cases hk : lid = k
  · rw [if_pos hk]
    by_cases hlt : lid < st.links.length
    · rw [if_pos hlt, if_pos ⟨hk.symm, hlt⟩]
    · rw [if_neg hlt, if_neg (fun hcon => hlt hcon.2)]
      have hge : st.links.length ≤ k := by omega
      rw [List.getElem?_eq_none hge]
  · rw [if_neg hk, if_neg (fun hcon => hk hcon.1.symm)]

theorem linkAt_lt_length (st : GState) (lid : Nat) (l : AVFilterLink)
    (h : linkAt st lid = some l) : lid < st.links.length := by
  unfold linkAt at h
  rw [List.get?_eq_getElem?] at h
  exact (List.getElem?_eq_some.mp h).1

theorem headI_of_pickInv (st0 st : GState)
    (h : ∀ k, fmtsIdx st k = fmtsIdx st0 k ∨
      fmtsIdx st k = [(fmtsIdx st0 k).headI]) (k : Nat) :
    (fmtsIdx st k).headI = (fmtsIdx st0 k).headI := by
  rcases h k with he | he
  · rw [he]
  · rw [he]
    rfl

theorem fmtsIdx_updLink (st : GState) (lid : Nat) (l : AVFilterLink)
    (k : Nat) : fmtsIdx (updLink st lid l) k = fmtsIdx st k := rfl

theorem PickRel_refl (st : GState) : PickRel st st :=
  ⟨rfl, rfl, fun _ => Or.inl rfl, fun _ l0 h => Or.inl h⟩

theorem pick_format_spec (st0 st : GState) (hrel : PickRel st0 st)
    (ol : Option Nat) :
    PickRel st0 (pick_format st ol) ∧
    (∀ lid, PickedAt st0 lid st → PickedAt st0 lid (pick_format st ol)) ∧
    (∀ lid l0 fi, linkAt st0 lid = some l0 → l0.in_formats = some fi →
      ol = some lid → PickedAt st0 lid (pick_format st ol)) := by
  obtain ⟨hg, hll, hfm, hlk⟩ := hrel
  rcases ol with _ | lid
  · exact ⟨⟨hg, hll, hfm, hlk⟩, fun _ h => h, fun _ _ _ _ _ h => by simp at h⟩
  · rcases hl : linkAt st lid with _ | l
    · refine ⟨?_, ?_, ?_⟩
      · simp only [pick_format, hl]
        exact ⟨hg, hll, hfm, hlk⟩
      · intro lid' h
        simp only [pick_format, hl]
        exact h
      · intro lid2 l0 fi h0 hfi hol
        have hol2 : lid2 = lid := by
          injection hol with h
          exact h.symm
        rw [hol2] at h0 ⊢
        rcases hlk lid l0 h0 with hc | ⟨fi', _, hc⟩
        · rw [hl] at hc
          simp at hc
        · rw [hl] at hc
          simp at hc
    · rcases hin : l.in_formats with _ | fi1
      · refine ⟨?_, ?_, ?_⟩
        · simp only [pick_format, hl, hin]
          exact ⟨hg, hll, hfm, hlk⟩
        · intro lid' h
          simp only [pick_format, hl, hin]
          exact h
        · intro lid2 l0 fi h0 hfi hol
          have hol2 : lid2 = lid := by
            injection hol with h
            exact h.symm
          rw [hol2] at h0 ⊢
          simp only [pick_format, hl, hin]
          rcases hlk lid l0 h0 with hc | ⟨fi', hfi', hc⟩
          · rw [hl] at hc
            injection hc with hc
            rw [hc] at hin
            rw [hin] at hfi
            simp at hfi
          · exact ⟨l0, fi', h0, hfi', hc⟩
      · have hlt : lid < st.links.length := linkAt_lt_length st lid l hl
        have hlid0 : lid < st0.links.length := by omega
        obtain ⟨l0, hl0⟩ : ∃ l0, linkAt st0 lid = some l0 := by
          unfold linkAt
          rw [List.get?_eq_getElem?, List.getElem?_eq_getElem hlid0]
          exact ⟨_, rfl⟩
        have hcase := hlk lid l0 hl0
        have hl0form : l = l0 ∧ l0.in_formats = some fi1 := by
          rcases hcase with hc | ⟨fi', hfi', hc⟩
          · rw [hl] at hc
            injection hc with hc
            subst hc
            exact ⟨rfl, hin⟩
          · rw [hl] at hc
            injection hc with hc
            subst hc
            simp [pickedLink] at hin
        obtain ⟨hel, hfi0⟩ := hl0form
        subst hel
        refine ⟨?_, ?_, ?_⟩
        · refine ⟨by simp [pick_format, hl, hin, updLink, updFmts, hg],
            by simp [pick_format, hl, hin, updLink, updFmts, hll], ?_, ?_⟩
          · intro k
            simp only [pick_format, hl, hin]
            rw [fmtsIdx_updLink, fmtsIdx_updFmts]
            by_cases hk : k = fi1 ∧ fi1 < st.fmts.length
            · rw [if_pos hk]
              right
              rw [headI_of_pickInv st0 st hfm, ← hk.1]
            · rw [if_neg hk]
              exact hfm k
          · intro lid' l0' h0'
            simp only [pick_format, hl, hin]
            rw [linkAt_updLink]
            by_cases hk : lid' = lid
            · rw [if_pos ⟨hk, hlt⟩]
              right
              rw [hk] at h0'
              rw [hl0] at h0'
              injection h0' with hll0
              refine ⟨fi1, by rw [← hll0]; exact hfi0, ?_⟩
              rw [← hll0]
              have hpl : pickedLink st0 fi1 l =
                  { l with format := (fmtsIdx st fi1).headI,
                           in_formats := none, out_formats := none } := by
                unfold pickedLink
                rw [headI_of_pickInv st0 st hfm]
              rw [hpl]
            · rw [if_neg (fun hcon => hk hcon.1)]
              exact hlk lid' l0' h0'
        · intro lid' hP
          obtain ⟨l0', fi', h0', hfi', hc'⟩ := hP
          refine ⟨l0', fi', h0', hfi', ?_⟩
          simp only [pick_format, hl, hin]
          rw [linkAt_updLink]
          by_cases hk : lid' = lid
          · rw [hk] at hc'
            rw [hl] at hc'
            injection hc' with hc'
            have hnone : l.in_formats = none := by
              rw [hc']
              rfl
            rw [hin] at hnone
            simp at hnone
          · rw [if_neg (fun hcon => hk hcon.1)]
            exact hc'
        · intro lid2 l0' fi' h0' hfi' hol
          refine ⟨l, fi1, ?_, hfi0, ?_⟩
          · have hol2 : lid2 = lid := by
              injection hol with h
              exact h.symm
            rw [hol2] at h0' ⊢
            exact hl0
          · have hol2 : lid2 = lid := by
              injection hol with h
              exact h.symm
            rw [hol2]
            simp only [pick_format, hl, hin]
            rw [linkAt_updLink]
            rw [if_pos ⟨rfl, hlt⟩]
            have hpl : pickedLink st0 fi1 l =
                { l with format := (fmtsIdx st fi1).headI,
                         in_formats := none, out_formats := none } := by
              unfold pickedLink
              rw [headI_of_pickInv st0 st hfm]
            rw [hpl]

theorem count_flatMap (f : AVFilterContext → List (Option Nat))
    (l : List AVFilterContext) (b : Option Nat) :
    (l.flatMap f).count b = (l.map (fun a => (f a).count b)).sum := by
  induction l with
  | nil => rfl
  | cons a t ih =>
    rw [List.flatMap_cons, List.count_append, List.map_cons, List.sum_cons, ih]

theorem sum_map_add (f g : AVFilterContext → Nat) (l : List AVFilterContext) :
    (l.map (fun a => f a + g a)).sum = (l.map f).sum + (l.map g).sum := by
  induction l with
  | nil => rfl
  | cons a t ih =>
    simp only [List.map_cons, List.sum_cons, ih]
    omega

theorem mem_of_getD_some (l : List (Option Nat)) (i : Nat) (x : Nat)
    (h : l.getD i none = some x) : some x ∈ l := by
  rw [List.getD_eq_getElem?_getD] at h
  rcases Nat.lt_or_ge i l.length with hi | hi
  · rw [List.getElem?_eq_getElem hi] at h
    simp only [Option.getD_some] at h
    exact h ▸ List.getElem_mem hi
  · rw [List.getElem?_eq_none hi] at h
    simp at h

theorem headI_mem_of_ne_nil (l : List Int) (h : l ≠ []) : l.headI ∈ l := by
  match l with
  | [] => exact absurd rfl h
  | a :: t => exact List.mem_cons_self a t

theorem GraphWF_of_eq (st st' : GState) (hl : st'.links = st.links)
    (hg : st'.graph = st.graph) (hwf : GraphWF st) : GraphWF st' := by
  intro lid hlt
  rw [hl] at hlt
  obtain ⟨l, h1, ⟨s, hs1, hs2, hs3⟩, ⟨d, hd1, hd2, hd3⟩, h4, h5⟩ := hwf lid hlt
  refine ⟨l, ?_, ⟨s, hs1, ?_, ?_⟩, ⟨d, hd1, ?_, ?_⟩, ?_, ?_⟩
  · rw [linkAt_eq_of_links_eq st st' hl]
    exact h1
  · rw [hg]
    exact hs2
  · show (filterAt st' s).outputs.getD l.srcpad none = some lid
    unfold filterAt
    rw [hg]
    exact hs3
  · rw [hg]
    exact hd2
  · show (filterAt st' d).inputs.getD l.dstpad none = some lid
    unfold filterAt
    rw [hg]
    exact hd3
  · rw [hg]
    exact h4
  · rw [hg]
    exact h5

theorem reduce_loop_rel :
    ∀ (fuel : Nat) (st : GState), RfRel st (reduce_loop st fuel).1 := by
  intro fuel
  induction fuel with
  | zero => intro st; exact RfRel_refl st
  | succ fuel ih =>
    intro st
    rcases hp : reduce_pass st with ⟨st1, r⟩
    obtain ⟨hrel, _, _⟩ := reduce_pass_spec st
    rw [hp] at hrel
    dsimp only at hrel
    rcases hr : r with _ | _
    · subst hr
      simp only [reduce_loop, hp]
      exact hrel
    · subst hr
      simp only [reduce_loop, hp]
      rcases hloop : reduce_loop st1 fuel with ⟨st2, n⟩
      have := ih st1
      rw [hloop] at this
      dsimp only at this ⊢
      exact RfRel_trans st st1 st2 hrel this

theorem reduce_formats_rel (st : GState) : RfRel st (reduce_formats st) :=
  reduce_loop_rel (reduceFuel st) st

theorem countVisits_eq_two (st : GState) (hwf : GraphWF st) (lid : Nat)
    (hlt : lid < st.links.length) : countVisits st lid = 2 := by
  obtain ⟨l, _, _, _, hcin, hcout⟩ := hwf lid hlt
  unfold countVisits visitSlots
  rw [count_flatMap]
  have hsplit :
      (st.graph.filters.map
        (fun c => ((c.inputs ++ c.outputs).count (some lid)))).sum =
      (st.graph.filters.map (fun c => c.inputs.count (some lid))).sum
        + (st.graph.filters.map (fun c => c.outputs.count (some lid))).sum := by
    rw [← sum_map_add]
    apply congrArg
    apply List.map_congr_left
    intro c _
    exact List.count_append (some lid) c.inputs c.outputs
  rw [hsplit, hcin, hcout]

theorem pick_list_spec (st0 : GState) :
    ∀ (slots : List (Option Nat)) (st : GState), PickRel st0 st →
    PickRel st0 (pick_list st slots) ∧
    (∀ lid, PickedAt st0 lid st → PickedAt st0 lid (pick_list st slots)) ∧
    (∀ lid l0 fi, linkAt st0 lid = some l0 → l0.in_formats = some fi →
      some lid ∈ slots → PickedAt st0 lid (pick_list st slots)) := by
  intro slots
  induction slots with
  | nil =>
    intro st hrel
    exact ⟨hrel, fun _ h => h,
      fun _ _ _ _ _ hmem => absurd hmem (by simp)⟩
  | cons ol rest ih =>
    intro st hrel
    obtain ⟨hrel1, hkeep1, hnew1⟩ := pick_format_spec st0 st hrel ol
    obtain ⟨hrel2, hkeep2, hnew2⟩ := ih (pick_format st ol) hrel1
    refine ⟨hrel2, ?_, ?_⟩
    · intro lid h
      exact hkeep2 lid (hkeep1 lid h)
    · intro lid l0 fi h0 hfi hmem
      rcases List.mem_cons.mp hmem with he | hm
      · exact hkeep2 lid (hnew1 lid l0 fi h0 hfi he.symm)
      · exact hnew2 lid l0 fi h0 hfi hm

theorem pick_filters_spec (st0 : GState) :
    ∀ (idxs : List Nat) (st : GState), PickRel st0 st →
    PickRel st0 (pick_filters st idxs) ∧
    (∀ lid, PickedAt st0 lid st → PickedAt st0 lid (pick_filters st idxs)) ∧
    (∀ lid l0 fi i, linkAt st0 lid = some l0 → l0.in_formats = some fi →
      i ∈ idxs →
      (some lid ∈ (filterAt st0 i).inputs ∨
        some lid ∈ (filterAt st0 i).outputs) →
      PickedAt st0 lid (pick_filters st idxs)) := by
  intro idxs
  induction idxs with
  | nil =>
    intro st hrel
    exact ⟨hrel, fun _ h => h,
      fun _ _ _ _ _ _ hmem _ => absurd hmem (by simp)⟩
  | cons i rest ih =>
    intro st hrel
    have hfeq : filterAt st i = filterAt st0 i := by
      unfold filterAt
      rw [hrel.1]
    obtain ⟨relA, keepA, newA⟩ :=
      pick_list_spec st0 (filterAt st i).inputs st hrel
    obtain ⟨relB, keepB, newB⟩ :=
      pick_list_spec st0 (filterAt st i).outputs _ relA
    obtain ⟨relC, keepC, newC⟩ := ih _ relB
    simp only [pick_filters]
    refine ⟨relC, ?_, ?_⟩
    · intro lid h
      exact keepC lid (keepB lid (keepA lid h))
    · intro lid l0 fi j h0 hfi hj hmem
      rcases List.mem_cons.mp hj with hji | hjr
      · subst hji
        rcases hmem with hin | hout
        · have hm : some lid ∈ (filterAt st j).inputs := by
            rw [hfeq]
            exact hin
          exact keepC lid (keepB lid (newA lid l0 fi h0 hfi hm))
        · have hm : some lid ∈ (filterAt st j).outputs := by
            rw [hfeq]
            exact hout
          exact keepC lid (newB lid l0 fi h0 hfi hm)
      · exact newC lid l0 fi j h0 hfi hjr hmem

theorem pick_formats_picks (st : GState) (hwf : GraphWF st)
    (lid : Nat) (l0 : AVFilterLink) (fi : Nat)
    (h0 : linkAt st lid = some l0) (hfi : l0.in_formats = some fi) :
    linkAt (pick_formats st) lid = some (pickedLink st fi l0) := by
  have hlt : lid < st.links.length := linkAt_lt_length st lid l0 h0
  obtain ⟨l, hl, _, ⟨d, _, hdlt, hslot⟩, _, _⟩ := hwf lid hlt
  have hmem : some lid ∈ (filterAt st d).inputs :=
    mem_of_getD_some _ _ _ hslot
  obtain ⟨_, _, hnew⟩ :=
    pick_filters_spec st (List.range st.graph.filters.length) st
      (PickRel_refl st)
  have hpicked : PickedAt st lid (pick_formats st) :=
    hnew lid l0 fi d h0 hfi (List.mem_range.mpr hdlt) (Or.inl hmem)
  obtain ⟨l0', fi', h0', hfi', hfin⟩ := hpicked
  rw [h0] at h0'
  injection h0' with h0'
  subst h0'
  rw [hfi] at hfi'
  injection hfi' with hfi'
  subst hfi'
  exact hfin

theorem graphWF_wStRed : GraphWF wStRed := by
  intro lid hlt
  have h0 : lid = 0 := Nat.lt_one_iff.mp hlt
  subst h0
  exact ⟨{ wLink with in_formats := some 0, out_formats := some 0 }, rfl,
    ⟨0, rfl, by decide, by decide⟩, ⟨1, rfl, by decide, by decide⟩,
    by decide, by decide⟩

/-- C10: pick_format is a no-op on a NULL pad slot, an absent link, and a
link whose in_formats reference was already released; it is idempotent (a
second application to any slot changes nothing more); in a well-formed
graph every link occurs exactly twice among the pad slots pick_formats
traverses (once as an output slot of its source, once as an input slot of
its destination), and the traversal leaves each live link picked exactly
once: its format is the first candidate of the set its in_formats
referenced, and both format-set references are released. -/
theorem pick_phase_properties :
    (∀ st, pick_format st none = st) ∧
    (∀ st lid, linkAt st lid = none → pick_format st (some lid) = st) ∧
    (∀ st lid l, linkAt st lid = some l → l.in_formats = none →
      pick_format st (some lid) = st) ∧
    (∀ st ol, pick_format (pick_format st ol) ol = pick_format st ol) ∧
    (∀ st, GraphWF st → ∀ lid, lid < numLinks st → countVisits st lid = 2) ∧
    (∀ st, GraphWF st → ∀ lid l0 fi, linkAt st lid = some l0 →
      l0.in_formats = some fi →
      linkAt (pick_formats st) lid = some (pickedLink st fi l0)) := by
  refine ⟨fun st => rfl, ?_, ?_, ?_, ?_, ?_⟩
  · intro st lid h
    simp [pick_format, h]
  · intro st lid l hl hin
    simp [pick_format, hl, hin]
  · intro st ol
    rcases ol with _ | lid
    · rfl
    · rcases hl : linkAt st lid with _ | l
      · have hno : pick_format st (some lid) = st := by
          simp [pick_format, hl]
        rw [hno]
        exact hno
      · rcases hin : l.in_formats with _ | fi
        · have hno : pick_format st (some lid) = st := by
            simp [pick_format, hl, hin]
          rw [hno]
          exact hno
        · have hlt : lid < st.links.length := linkAt_lt_length st lid l hl
          have hst1 : pick_format st (some lid) =
              updLink (updFmts st fi [(fmtsIdx st fi).headI]) lid
                { l with format := (fmtsIdx st fi).headI,
                         in_formats := none, out_formats := none } := by
            simp [pick_format, hl, hin]
          rw [hst1]
          have hl2 : linkAt (updLink (updFmts st fi [(fmtsIdx st fi).headI])
              lid { l with format := (fmtsIdx st fi).headI,
                           in_formats := none, out_formats := none }) lid =
              some { l with format := (fmtsIdx st fi).headI,
                            in_formats := none, out_formats := none } := by
            rw [linkAt_updLink]
            rw [if_pos ⟨rfl, hlt⟩]
          simp [pick_format, hl2]
  · intro st hwf lid hlt
    exact countVisits_eq_two st hwf lid hlt
  · intro st hwf lid l0 fi h0 hfi
    exact pick_formats_picks st hwf lid l0 fi h0 hfi

theorem pick_phase_properties_witness :
    GraphWF wStRed ∧ countVisits wStRed 0 = 2 ∧
    linkAt (pick_formats wStRed) 0 =
      some (pickedLink wStRed 0
        { wLink with in_formats := some 0, out_formats := some 0 }) := by
  refine ⟨graphWF_wStRed, ?_, ?_⟩
  · exact pick_phase_properties.2.2.2.2.1 wStRed graphWF_wStRed 0 (by decide)
  · exact pick_phase_properties.2.2.2.2.2 wStRed graphWF_wStRed 0
      { wLink with in_formats := some 0, out_formats := some 0 } 0 rfl rfl

/-- C1: Merge replaces the two candidate sets of a link by one shared set
holding exactly their intersection (nonempty, contained in both operands,
all references redirected); Reduce relates its input to its output by
RfRel, so it only pins a referenced set to a singleton drawn from that
set's own candidates; and on a well-formed state whose every live link
references a nonempty candidate set contained in both of the link's
original pre-merge sets, the format Pick stores on each such link after
Reduce is a member of both original sets. -/
theorem link_format_in_original_sets :
    (∀ st a b st', avfilter_merge_formats st (some a) (some b) = some st' →
      fmtsIdx st' st.fmts.length =
        (fmtsIdx st a).filter (fun x => (fmtsIdx st b).contains x) ∧
      fmtsIdx st' st.fmts.length ≠ [] ∧
      fmtsIdx st' st.fmts.length ⊆ fmtsIdx st a ∧
      fmtsIdx st' st.fmts.length ⊆ fmtsIdx st b ∧
      (∀ lid l, linkAt st lid = some l →
        linkAt st' lid = some
          { l with
            in_formats := mergeRedirect a b st.fmts.length l.in_formats,
            out_formats :=
              mergeRedirect a b st.fmts.length l.out_formats })) ∧
    (∀ st, RfRel st (reduce_formats st)) ∧
    (∀ (st : GState) (origIn origOut : Nat → List Int), GraphWF st →
      (∀ lid l fi, linkAt st lid = some l → l.in_formats = some fi →
        fmtsIdx st fi ≠ [] ∧ fmtsIdx st fi ⊆ origIn lid ∧
        fmtsIdx st fi ⊆ origOut lid) →
      ∀ lid l0 fi, linkAt st lid = some l0 → l0.in_formats = some fi →
        ∃ le, linkAt (pick_formats (reduce_formats st)) lid = some le ∧
          le.format ∈ origIn lid ∧ le.format ∈ origOut lid) := by
  refine ⟨?_, reduce_formats_rel, ?_⟩
  · intro st a b st' h
    unfold avfilter_merge_formats at h
    dsimp only at h
    by_cases hinter :
        (fmtsIdx st a).filter (fun x => (fmtsIdx st b).contains x) = []
    · rw [if_pos hinter] at h
      exact absurd h (by simp)
    · rw [if_neg hinter] at h
      injection h with h
      subst h
      have h1 : fmtsIdx
          { st with
            fmts := st.fmts ++
              [⟨(fmtsIdx st a).filter (fun x => (fmtsIdx st b).contains x)⟩],
            links := st.links.map (fun l =>
              { l with
                in_formats := mergeRedirect a b st.fmts.length l.in_formats,
                out_formats :=
                  mergeRedirect a b st.fmts.length l.out_formats }) }
          st.fmts.length =
          (fmtsIdx st a).filter (fun x => (fmtsIdx st b).contains x) := by
        show ((st.fmts ++
            [(⟨(fmtsIdx st a).filter (fun x => (fmtsIdx st b).contains x)⟩ :
              AVFilterFormats)]).getD st.fmts.length ⟨[]⟩).formats = _
        rw [List.getD_eq_getElem?_getD, List.getElem?_concat_length]
        rfl
      refine ⟨h1, ?_, ?_, ?_, ?_⟩
      · rw [h1]
        exact hinter
      · rw [h1]
        intro x hx
        exact (List.mem_filter.mp hx).1
      · rw [h1]
        intro x hx
        exact List.mem_of_elem_eq_true (List.mem_filter.mp hx).2
      · intro lid l hl
        show (st.links.map _).get? lid = _
        unfold linkAt at hl
        rw [List.get?_eq_getElem?] at hl ⊢
        rw [List.getElem?_map, hl]
        rfl
  · intro st origIn origOut hwf hsub lid l0 fi h0 hfi
    obtain ⟨hl, hg, _, hfm⟩ := reduce_formats_rel st
    have hwf2 : GraphWF (reduce_formats st) :=
      GraphWF_of_eq st (reduce_formats st) hl hg hwf
    have h02 : linkAt (reduce_formats st) lid = some l0 := by
      rw [linkAt_eq_of_links_eq st (reduce_formats st) hl]
      exact h0
    have hpick :=
      pick_formats_picks (reduce_formats st) hwf2 lid l0 fi h02 hfi
    obtain ⟨hne, hsubin, hsubout⟩ := hsub lid l0 fi h0 hfi
    have hsubr : fmtsIdx (reduce_formats st) fi ⊆ fmtsIdx st fi ∧
        fmtsIdx (reduce_formats st) fi ≠ [] := by
      rcases hfm fi with he | ⟨hone, _, hs, _⟩
      · rw [he]
        exact ⟨fun x hx => hx, hne⟩
      · refine ⟨hs, ?_⟩
        intro hnil
        rw [hnil] at hone
        simp at hone
    have hmem : (fmtsIdx (reduce_formats st) fi).headI ∈ fmtsIdx st fi :=
      hsubr.1 (headI_mem_of_ne_nil _ hsubr.2)
    exact ⟨pickedLink (reduce_formats st) fi l0, hpick,
      hsubin hmem, hsubout hmem⟩

theorem link_format_in_original_sets_witness :
    ∃ le, linkAt (pick_formats (reduce_formats wStRed)) 0 = some le ∧
      le.format ∈ [(2 : Int), 5] ∧ le.format ∈ [(5 : Int), 2, 7] := by
  refine link_format_in_original_sets.2.2 wStRed (fun _ => [2, 5])
    (fun _ => [5, 2, 7]) graphWF_wStRed ?_ 0
    { wLink with in_formats := some 0, out_formats := some 0 } 0 rfl rfl
  intro lid l fi hl hfi
  have hlid : lid = 0 := Nat.lt_one_iff.mp (linkAt_lt_length wStRed lid l hl)
  subst hlid
  have hl0 : linkAt wStRed 0 =
      some { wLink with in_formats := some 0, out_formats := some 0 } := rfl
  have hl2 := hl0.symm.trans hl
  injection hl2 with hl2
  subst hl2
  have hfi2 : some 0 = some fi := hfi
  injection hfi2 with hfi2
  subst hfi2
  refine ⟨by decide, ?_, ?_⟩
  · intro x hx
    have : x ∈ [(2 : Int), 5] := hx
    exact this
  · intro x hx
    have hx2 : x ∈ [(2 : Int), 5] := hx
    have hor : x = 2 ∨ x = 5 := by simpa using hx2
    rcases hor with h | h
    · subst h
      decide
    · subst h
      decide
